import Mathlib

/-!
Shallow embedding of the StaffSlackBot repository (Python) for verification.

Source files embedded: `src/fields.py`, `src/models.py`, `src/classes.py`,
`src/utils.py`, `src/sql.py`, `src/settings.py`.

Conventions of the embedding:
* Python strings are Lean `String`s; Python `None` is `Option.none`.
* `datetime` values are modelled as `Nat` (UTC seconds); only ordering and
  addition of a timeout are ever used by the code.
* the SQLite `users` table is a `List User`; the `challenges` table is a
  `List (String × String)` of `(slack_id, challenge)` rows.
* `random.sample(xs, 1)` is modelled by an extra `Nat` parameter `r` used as
  an index `r % xs.length` into the candidate list: every element of the
  candidate set is obtained for some `r`, which covers all randomness.
* `.lower()` / `.upper()` / `.title()` are modelled on ASCII letters
  (`Char.toLower` / `Char.toUpper`), which is what the repository's data
  (Slack ids, latin names) exercises.
* a Python exception escaping the modelled operation is `Option.none` around
  the operation's result.
-/

namespace StaffBot

/-- Characters accepted by Python `str.strip()` / `str.split()` with no
arguments (ASCII whitespace, as in CPython's `Py_UNICODE_ISSPACE` for the
ASCII range). -/
def pyIsSpace (c : Char) : Bool :=
  c = ' ' || c = '\t' || c = '\n' || c = '\r' || c = '\x0b' || c = '\x0c'

/-- Python `str.strip()` with no arguments. -/
def pyStrip (s : String) : String :=
  String.mk (((s.toList.dropWhile pyIsSpace).reverse.dropWhile pyIsSpace).reverse)

/-- Worker for `pySplit`: `acc` holds the current token, reversed. -/
def pySplitGo : List Char → List Char → List (List Char)
  | acc, [] => if acc.isEmpty then [] else [acc.reverse]
  | acc, c :: t =>
    if pyIsSpace c then
      if acc.isEmpty then pySplitGo [] t else acc.reverse :: pySplitGo [] t
    else pySplitGo (c :: acc) t

/-- Python `str.split()` with no arguments: split on runs of whitespace,
dropping empty tokens. -/
def pySplit (cs : List Char) : List (List Char) := pySplitGo [] cs

/-- `pySplit` lifted to `String`s. -/
def pySplitStr (s : String) : List String := (pySplit s.toList).map String.mk

/-- Worker for `pyTitle` (`prevAlpha` records whether the previous character
was cased). -/
def pyTitleGo : Bool → List Char → List Char
  | _, [] => []
  | prevAlpha, c :: t =>
    (if c.isAlpha then (if prevAlpha then c.toLower else c.toUpper) else c)
      :: pyTitleGo c.isAlpha t

/-- Python `str.title()` (ASCII model). -/
def pyTitle (s : String) : String := String.mk (pyTitleGo false s.toList)

/-- Python `str.lower()` (ASCII model, character-wise). -/
def pyLower (s : String) : String := String.mk (s.toList.map Char.toLower)

/-- Python `str.upper()` (ASCII model, character-wise). -/
def pyUpper (s : String) : String := String.mk (s.toList.map Char.toUpper)

/-- Python `str.startswith` in list form. -/
def pyStartsWith (s p : String) : Bool := s.toList.take p.toList.length == p.toList

/-! ### src/fields.py — descriptor field wrappers

Each `__set__` is modelled as a function from the assigned value to the value
actually stored.  A raised `ValueError` is modelled as `none` by
`StringField.set` (the only wrapper used on a mandatory field); for the
nullable wrappers a falsy assigned value is stored as `None`, which is also
`none`, so no error case is needed there. -/

/-- `fields.StringField.__set__`: rejects falsy values (`none` models the
raised `ValueError`), otherwise stores the string lower-cased, or upper-cased
when `upper_case=True`. -/
def StringField.set (upperCase : Bool) (v : Option String) : Option String :=
  match v with
  | none => none
  | some s => if s = "" then none else some (if upperCase then pyUpper s else pyLower s)

/-- `fields.NullStringField.__set__`: falsy values are stored as `None`;
otherwise stores lower-cased (upper-cased when `upper_case=True`). -/
def NullStringField.set (upperCase : Bool) (v : Option String) : Option String :=
  match v with
  | none => none
  | some s => if s = "" then none else some (if upperCase then pyUpper s else pyLower s)

/-- Character class `[a-zA-Z0-9_.+-]` (local part of the e-mail pattern in
`fields.NullEmailField`). -/
def emailLocalChar (c : Char) : Bool :=
  c.isAlphanum || c = '_' || c = '.' || c = '+' || c = '-'

/-- Character class `[a-zA-Z0-9-]` (first domain label of the pattern). -/
def emailDomChar (c : Char) : Bool := c.isAlphanum || c = '-'

/-- Character class `[a-zA-Z0-9-.]` (tail of the domain in the pattern). -/
def emailTailChar (c : Char) : Bool := c.isAlphanum || c = '-' || c = '.'

/-- One attempted match of `[a-zA-Z0-9_.+-]+@[a-zA-Z0-9-]+\.[a-zA-Z0-9-.]+`
anchored at the head of `cs`.  No backtracking is needed: none of the three
character classes contains the delimiter that follows it. -/
def emailMatchHere (cs : List Char) : Option (List Char) :=
  let localPart := cs.takeWhile emailLocalChar
  let rest := cs.dropWhile emailLocalChar
  if localPart.isEmpty then none
  else
    match rest with
    | '@' :: afterAt =>
      let dom := afterAt.takeWhile emailDomChar
      let rest2 := afterAt.dropWhile emailDomChar
      if dom.isEmpty then none
      else
        match rest2 with
        | '.' :: afterDot =>
          let tail := afterDot.takeWhile emailTailChar
          if tail.isEmpty then none
          else some (localPart ++ '@' :: dom ++ '.' :: tail)
        | _ => none
    | _ => none

/-- Leftmost match of the e-mail pattern (`re.search` semantics). -/
def emailSearch : List Char → Option (List Char)
  | [] => none
  | c :: t =>
    match emailMatchHere (c :: t) with
    | some m => some m
    | none => emailSearch t

/-- `fields.NullEmailField.__set__`: stores the first substring matching the
e-mail pattern, lower-cased; stores `None` when the value is falsy or no
match is found. -/
def NullEmailField.set (v : Option String) : Option String :=
  match v with
  | none => none
  | some s =>
    if s = "" then none
    else (emailSearch s.toList).map (fun m => pyLower (String.mk m))

/-- Modelled from the spec: `fields.BoolField` is imported by
`src/models.py` but absent from `src/fields.py` (revision drift).  Per the
spec's data model, `eligible` is a boolean "Defaults to true in case face
detection is disabled", so an unset value stores the default. -/
def BoolField.set (default : Bool) (v : Option Bool) : Bool := v.getD default

/-! ### src/models.py — the User model -/

/-- `models.User`: one row of the `users` table, fields in the order of
`User.all_attributes`. -/
structure User where
  slack_id : String
  slack_channel : Option String
  email : Option String
  full_name : Option String
  pref_name : Option String
  phone : Option String
  photo_url : Option String
  challenge : Option String
  challenge_datetime : Option Nat
  can_play_game : Bool
  deriving Repr, DecidableEq

/-- `User.first_name`: first whitespace token of `full_name`, title-cased;
`None` when `full_name` is falsy.  (A whitespace-only `full_name` would raise
`IndexError` on `pop(0)` in the source; it is unconstructible through
`NullStringField`, and modelled as `none`.) -/
def first_name (u : User) : Option String :=
  match u.full_name with
  | none => none
  | some s => (pySplitStr s).head?.map pyTitle

/-- `User.all_names`: every whitespace token of `full_name` and `pref_name`
(a Python `set`; modelled as a list, queried only through membership). -/
def all_names (u : User) : List String :=
  (match u.full_name with | none => [] | some s => pySplitStr s) ++
  (match u.pref_name with | none => [] | some s => pySplitStr s)

/-- `User._update` applied to the row fetched for `self.slack_id`: every
column is first nulled and then overwritten with `self`'s value when that
value is truthy, so the updated row depends on `self` alone.  (`can_play_game
= False` is stored as SQL `NULL` and read back as `False`, hence copies
through unchanged.) -/
def updateRow (self : User) : User :=
  { slack_id := self.slack_id
    slack_channel := match self.slack_channel with
      | none => none | some s => if s = "" then none else some s
    email := match self.email with
      | none => none | some s => if s = "" then none else some s
    full_name := match self.full_name with
      | none => none | some s => if s = "" then none else some s
    pref_name := match self.pref_name with
      | none => none | some s => if s = "" then none else some s
    phone := match self.phone with
      | none => none | some s => if s = "" then none else some s
    photo_url := match self.photo_url with
      | none => none | some s => if s = "" then none else some s
    challenge := match self.challenge with
      | none => none | some s => if s = "" then none else some s
    challenge_datetime := self.challenge_datetime
    can_play_game := self.can_play_game }

/-- `User.get(slack_id=sid)`: `None` search parameters (and the falsy empty
string) return `None`; otherwise the first `users` row with that id. -/
def User.get (sid : Option String) (db : List User) : Option User :=
  match sid with
  | none => none
  | some s => if s = "" then none else db.find? (fun r => r.slack_id == s)

/-- `User.save`: update the existing row via `_update`, else insert. -/
def save (self : User) (db : List User) : List User :=
  if db.any (fun r => r.slack_id == self.slack_id) then
    db.map (fun r => if r.slack_id == self.slack_id then updateRow self else r)
  else db ++ [self]

/-- `User.get_all_valid_users`: ids of all other rows with
`can_play_game = 1`.  (`NOT LIKE` in the source compares the stored
upper-cased ids; with no wildcard characters in Slack ids it is inequality.) -/
def get_all_valid_users (self : User) (db : List User) : List String :=
  (db.filter (fun u => decide (u.slack_id ≠ self.slack_id) && u.can_play_game)).map
    (fun u => u.slack_id)

/-- Modelled from the spec: `ProcessQueue.issue_challenge` calls
`user.get_all_other_users()`, which is not defined in `src/models.py`
(revision drift).  The spec (§4.3) describes the set it computes — "compute
eligible-others set (all users flagged eligible, excluding self)" — which is
exactly the set returned by `get_all_valid_users`. -/
def get_all_other_users (self : User) (db : List User) : List String :=
  get_all_valid_users self db

/-! ### The challenge rotation algorithm

`User.get_next_challenge` (src/models.py lines 182-215) and its inlined copy
in `ProcessQueue.issue_challenge` (src/classes.py lines 165-190) run the same
algorithm over the per-user slice of the `challenges` table.  `rotStep` is
that algorithm on the per-user state: `E` is the eligible-others list,
`H` the list of targets already recorded for the user this round, and `r`
resolves `random.sample(available, 1)`.  The result is `none` exactly when
`random.sample` raises `ValueError` (empty candidate set, possible only when
`E` itself is empty); otherwise the pick and the user's new history slice. -/
def rotStep (E H : List String) (r : Nat) : Option (String × List String) :=
  let available := E.filter (fun u => decide (u ∉ H))
  -- on exhaustion the round resets: DELETE the user's history rows, candidates become E
  let p := if available.isEmpty then (E, ([] : List String)) else (available, H)
  if p.1.isEmpty then none
  else
    let pick := p.1.getD (r % p.1.length) ""
    -- INSERT INTO challenges (slack_id, challenge): recorded before any use of the pick
    some (pick, p.2 ++ [pick])

/-- A sequence of calls to the rotation algorithm for one user with a fixed
eligible-others list `E`: returns the picks in order and the final history
slice.  A raising call ends the sequence. -/
def rotRun (E : List String) (H : List String) : List Nat → List String × List String
  | [] => ([], H)
  | r :: rs =>
    match rotStep E H r with
    | none => ([], H)
    | some (p, H2) =>
      let rest := rotRun E H2 rs
      (p :: rest.1, rest.2)

/-- The per-user slice of the `challenges` table: targets recorded for
`uid`, in row order (the INNER JOIN in the source only requires the owning
user row to exist, which holds for every inserted row). -/
def userHistory (uid : String) (tbl : List (String × String)) : List String :=
  (tbl.filter (fun p => p.1 == uid)).map (fun p => p.2)

/-- `User.get_next_challenge` at table level: reads the user's history slice,
runs the rotation, and writes the table back (round reset deletes the user's
rows; the pick is inserted). -/
def get_next_challenge (self : User) (db : List User) (tbl : List (String × String))
    (r : Nat) : Option (String × List (String × String)) :=
  let all_users := get_all_valid_users self db
  let current := userHistory self.slack_id tbl
  let available := all_users.filter (fun u => decide (u ∉ current))
  let p :=
    if available.isEmpty then (all_users, tbl.filter (fun q => !(q.1 == self.slack_id)))
    else (available, tbl)
  if p.1.isEmpty then none
  else
    let pick := p.1.getD (r % p.1.length) ""
    some (pick, p.2 ++ [(self.slack_id, pick)])

/-! ### src/classes.py — SlackEvent and classification -/

/-- `classes.SlackEvent` after construction: `user` went through
`StringField(upper_case=True)`, `message` through `StringField()`. -/
structure SlackEvent where
  user : String
  message : String
  deriving Repr, DecidableEq

/-- `SlackEvent.__init__`: both fields are mandatory `StringField`s, so a
falsy argument raises `ValueError` (modelled as `none`). -/
def mkSlackEvent (user message : String) : Option SlackEvent :=
  match StringField.set true (some user), StringField.set false (some message) with
  | some u, some m => some ⟨u, m⟩
  | _, _ => none

/-- A raw event from `rtm_read()`, with the keys the source reads. -/
structure RawEvent where
  type : String
  subtype : Option String
  user : String
  text : String
  channel : String
  deriving Repr, DecidableEq

/-- Splits `cs` at the first `'>'`, failing on `'\n'` or the end of input:
the lazy `.+?>` tail of the mention pattern after its first consumed
character (`.` does not match a newline and `re.search` takes the shortest
extension of `.+?`). -/
def splitAtClose : List Char → Option (List Char × List Char)
  | [] => none
  | c :: t =>
    if c = '>' then some ([], t)
    else if c = '\n' then none
    else match splitAtClose t with
      | some (mid, rest) => some (c :: mid, rest)
      | none => none

/-- The greedy `(.*)` group: everything up to the first newline. -/
def takeLine (cs : List Char) : List Char := cs.takeWhile (fun c => !(c == '\n'))

/-- `SlackEvent.parse_direct_mention`: `re.search("^<@(|[WU].+?)>(.*)", text,
re.IGNORECASE)`, returning `(group(1), group(2).strip())` on a match.  The
first alternative of group 1 is empty (tried first), the second requires a
`W`/`U` (either case) followed by at least one character before the `'>'`. -/
def parse_direct_mention (text : String) : Option (String × String) :=
  match text.toList with
  | '<' :: '@' :: rest =>
    match rest with
    | [] => none
    | '>' :: t => some ("", pyStrip (String.mk (takeLine t)))
    | c :: t =>
      if c = 'W' ∨ c = 'U' ∨ c = 'w' ∨ c = 'u' then
        match t with
        | [] => none
        | a :: t2 =>
          if a = '\n' then none
          else
            match splitAtClose t2 with
            | some (mid, rest2) =>
              some (String.mk (c :: a :: mid), pyStrip (String.mk (takeLine rest2)))
            | none => none
      else none
  | _ => none

/-- `SlackEvent.is_direct_message`: `SELECT * FROM users WHERE slack_channel
= ?` — true iff some user row stores this channel (SQL `NULL` never
compares equal). -/
def is_direct_message (channel : String) (db : List User) : Bool :=
  db.any (fun u => u.slack_channel == some channel)

/-- Outcome of classifying one raw event in
`MonitorSlack.queue_slack_events`. -/
inductive ClassifyResult where
  | ignored
  | enqueued (ev : SlackEvent)
  | errored
  deriving Repr, DecidableEq

/-- The direct-message fallback of `queue_slack_events`: forward the raw
event text when the sending channel is a stored direct channel.  `errored`
models the `ValueError` from `SlackEvent.__init__` on a falsy field. -/
def dmBranch (db : List User) (e : RawEvent) : ClassifyResult :=
  if is_direct_message e.channel db then
    match mkSlackEvent e.user e.text with
    | some ev => .enqueued ev
    | none => .errored
  else .ignored

/-- One iteration of the event loop in `MonitorSlack.queue_slack_events`:
classify a raw event and decide what lands on the queue. -/
def queue_event (staffBotId : String) (db : List User) (e : RawEvent) : ClassifyResult :=
  if e.type = "message" ∧ e.subtype = none then
    match parse_direct_mention e.text with
    | some (uid, msg) =>
      if uid = staffBotId ∧ msg ≠ "" then
        match mkSlackEvent e.user msg with
        | some ev => .enqueued ev
        | none => .errored
      else dmBranch db e
    | none => dmBranch db e
  else .ignored

/-! ### Outbound messages (`SLACK_CLIENT.api_call("chat.postMessage", ...)`) -/

/-- The payload kinds the bot ever sends, one per `api_call` site. -/
inductive OutKind where
  /-- the default "I'm not sure what you mean" response -/
  | help
  /-- "We couldn't detect any other users on your Slack server!" -/
  | noOthers
  /-- the challenge prompt: attachment with the target's photo -/
  | photo (url : Option String)
  /-- "Something went wrong with issuing your new challenge" -/
  | issueBroken
  /-- "Yes! You got it!" -/
  | correct
  /-- "Nope, sorry, its: {first_name}" -/
  | wrong (name : Option String)
  /-- "Something went wrong while resolving your challenge" -/
  | resolveBroken
  /-- "Sorry, you took to long to respond, it is: {first_name}" -/
  | timedOut (name : Option String)
  deriving Repr, DecidableEq

/-- One outbound `chat.postMessage` call: the `channel=` argument and the
payload kind. -/
structure Out where
  channel : Option String
  kind : OutKind
  deriving Repr, DecidableEq

/-- Whether an outbound message is the challenge prompt. -/
def isPhoto : OutKind → Bool
  | .photo _ => true
  | _ => false

/-- Whether an outbound message is the expiry notification. -/
def isTimedOut : OutKind → Bool
  | .timedOut _ => true
  | _ => false

/-! ### src/classes.py — ProcessQueue (the Processor) -/

/-- `ProcessQueue.resolve_challenge`: look the challenge target up, compare
the (already lower-cased) message against the target's names, then clear both
challenge fields, persist, and send one feedback message. -/
def resolve_challenge (event : SlackEvent) (user : User) (db : List User) :
    List User × Out :=
  let challenge_user := User.get user.challenge db
  let kind :=
    match challenge_user with
    | none => OutKind.resolveBroken
    | some cu =>
      if pyLower event.message ∈ all_names cu then OutKind.correct
      else OutKind.wrong (first_name cu)
  let user2 := { user with challenge := none, challenge_datetime := none }
  (save user2 db, ⟨user.slack_channel, kind⟩)

/-- `settings.PLAY_GAME`. -/
def PLAY_GAME : String := "play"

/-- The candidate pair of the issuing path: the available list after the
possible round reset, and the `challenges` table after the possible
`DELETE` of the user's rows. -/
def issueCands (user : User) (db : List User) (tbl : List (String × String)) :
    List String × List (String × String) :=
  let all_users := get_all_other_users user db
  let current := userHistory user.slack_id tbl
  let available := all_users.filter (fun u => decide (u ∉ current))
  if available.isEmpty then
    (all_users, tbl.filter (fun q => !(q.1 == user.slack_id)))
  else (available, tbl)

/-- The target chosen by the issuing path (`random.sample` resolved by `r`). -/
def issuePick (user : User) (db : List User) (tbl : List (String × String))
    (r : Nat) : String :=
  (issueCands user db tbl).1.getD (r % (issueCands user db tbl).1.length) ""

/-- `ProcessQueue.issue_challenge` (`now` is `datetime.utcnow()`, `r`
resolves `random.sample`): returns the new `users` table, the new
`challenges` table and the outbound messages of this call. -/
def issue_challenge (now r : Nat) (event : SlackEvent) (user : User)
    (db : List User) (tbl : List (String × String)) :
    List User × List (String × String) × List Out :=
  if pyStartsWith event.message PLAY_GAME then
    let all_users := get_all_other_users user db
    if all_users.isEmpty then (db, tbl, [⟨user.slack_channel, .noOthers⟩])
    else
      let p := issueCands user db tbl
      let new_challenge := issuePick user db tbl r
      -- the history row is inserted here, before the target row is loaded
      let tbl3 := p.2 ++ [(user.slack_id, new_challenge)]
      match User.get (some new_challenge) db with
      | some new_challenge_user =>
        let user2 := { user with challenge := some new_challenge,
                                 challenge_datetime := some now }
        (save user2 db, tbl3, [⟨user.slack_channel, .photo new_challenge_user.photo_url⟩])
      | none => (db, tbl3, [⟨user.slack_channel, .issueBroken⟩])
  else (db, tbl, [⟨user.slack_channel, .help⟩])

/-- The body of `ProcessQueue.run` for one dequeued event: load the sender,
resolve when a challenge is active, otherwise issue. -/
def processEvent (now r : Nat) (event : SlackEvent)
    (db : List User) (tbl : List (String × String)) :
    List User × List (String × String) × List Out :=
  match User.get (some event.user) db with
  | some user =>
    match user.challenge with
    | some _ =>
      let res := resolve_challenge event user db
      (res.1, tbl, [res.2])
    | none => issue_challenge now r event user db tbl
  | none => (db, tbl, [])

/-! ### src/classes.py — ScheduleThread (the Scheduler) -/

/-- Worker for `clear_challenges`: processes the initially selected rows in
order, threading the evolving `users` table and the outbound messages.
Returns `none` when a selected row has a challenge but no
`challenge_datetime` (`datetime.strptime(None, ...)` raises). -/
def clearGo (timeout now : Nat) :
    List User → List User → List Out → Option (List User × List Out)
  | [], db, out => some (db, out)
  | row :: rest, db, out =>
    match row.challenge with
    | none => clearGo timeout now rest db out
    | some c =>
      match row.challenge_datetime with
      | none => none
      | some t =>
        if t + timeout ≤ now then
          match User.get (some c) db, User.get (some row.slack_id) db with
          | some challenge_user, some user =>
            let user2 := { user with challenge := none, challenge_datetime := none }
            clearGo timeout now rest (save user2 db)
              (out ++ [⟨user.slack_channel, .timedOut (first_name challenge_user)⟩])
          | _, _ => clearGo timeout now rest db out
        else clearGo timeout now rest db out

/-- `ScheduleThread.clear_challenges`: select the users with a non-null
challenge, and expire each row whose deadline `challenge_datetime +
CHALLENGE_TIMEOUT` has passed — clearing both fields, persisting, and
notifying — skipping rows whose user or target cannot be re-fetched. -/
def clear_challenges (timeout now : Nat) (db : List User) :
    Option (List User × List Out) :=
  clearGo timeout now (db.filter (fun u => u.challenge.isSome)) db []

/-! ### src/utils.py — directory sync and face detection -/

/-- Hexadecimal digit value, as accepted by `urllib.parse.unquote`. -/
def hexVal (c : Char) : Option Nat :=
  if '0' ≤ c ∧ c ≤ '9' then some (c.toNat - '0'.toNat)
  else if 'a' ≤ c ∧ c ≤ 'f' then some (c.toNat - 'a'.toNat + 10)
  else if 'A' ≤ c ∧ c ≤ 'F' then some (c.toNat - 'A'.toNat + 10)
  else none

/-- `urllib.parse.unquote_plus` (single-byte model): `+` becomes a space,
`%XX` decodes, malformed escapes pass through. -/
def unquotePlusGo : List Char → List Char
  | [] => []
  | '+' :: t => ' ' :: unquotePlusGo t
  | '%' :: a :: b :: t =>
    match hexVal a, hexVal b with
    | some x, some y => Char.ofNat (16 * x + y) :: unquotePlusGo t
    | _, _ => '%' :: unquotePlusGo (a :: b :: t)
  | c :: t => c :: unquotePlusGo t

/-- `urllib.parse.unquote_plus` on strings. -/
def unquote_plus (s : String) : String := String.mk (unquotePlusGo s.toList)

/-- The profile sub-object of a Slack `users.list` member, with the keys the
source reads. -/
structure SlackProfile where
  email : Option String
  real_name_normalized : Option String
  display_name_normalized : Option String
  phone : Option String
  image_192 : Option String
  deriving Repr, DecidableEq

/-- A Slack `users.list` member, with the keys the source reads. -/
structure SlackMember where
  id : Option String
  deleted : Bool
  is_bot : Bool
  profile : Option SlackProfile
  deriving Repr, DecidableEq

/-- `User.parse_slack_data`: the outer `none` models the uncaught
`AttributeError` when `image_192` is absent (`None.split`), the inner `none`
the explicit `return None` for a missing id or profile.  Every assignment
goes through the field descriptors; `slack_channel` stays unset (`None`),
`challenge`/`challenge_datetime` are explicitly set to `None`, and
`can_play_game` takes `BoolField`'s default. -/
def parse_slack_data (data : SlackMember) : Option (Option User) :=
  match data.id, data.profile with
  | some uid, some profile =>
    if uid = "" then some none
    else
      match profile.image_192 with
      | none => none
      | some img =>
        some (some
          { slack_id := pyUpper uid
            slack_channel := none
            email := NullEmailField.set profile.email
            full_name := NullStringField.set false
              (some (profile.real_name_normalized.getD "None"))
            pref_name := NullStringField.set false profile.display_name_normalized
            phone := NullStringField.set false profile.phone
            photo_url := NullStringField.set false
              (some (unquote_plus (((img.splitOn "&d=").getLastD img))))
            challenge := none
            challenge_datetime := none
            can_play_game := BoolField.set true none })
  | _, _ => some none

/-- `utils.is_active_slack_user`: non-deleted, non-bot, with a truthy
profile e-mail. -/
def is_active_slack_user (user : SlackMember) : Bool :=
  if !user.deleted && !user.is_bot then
    match user.profile with
    | some profile =>
      match profile.email with
      | some e => e ≠ ""
      | none => false
    | none => false
  else false

/-- `User.delete` under `PRAGMA foreign_keys = ON`: deleting a user who owns
rows in `challenges` violates the foreign key and raises `IntegrityError`
(`none`); rows where the user only appears as a target do not block. -/
def deleteUser (self : User) (db : List User) (tbl : List (String × String)) :
    Option (List User) :=
  match User.get (some self.slack_id) db with
  | none => some db
  | some u =>
    if tbl.any (fun p => p.1 == u.slack_id) then none
    else some (db.filter (fun r => !(r.slack_id == u.slack_id)))

/-- One iteration of the roster loop in `utils.get_users_from_slack`:
parse the member, and either save the active user (with their direct
channel from `conversations.list`) or delete the inactive one. -/
def sync_member (channels : List (String × String)) (member : SlackMember)
    (db : List User) (tbl : List (String × String)) :
    Option (List User × List (String × String)) :=
  match parse_slack_data member with
  | none => none
  | some none => some (db, tbl)
  | some (some current_user) =>
    if is_active_slack_user member then
      let cu2 := { current_user with
        slack_channel := NullStringField.set true
          ((channels.find? (fun p => p.1 == current_user.slack_id)).map (fun p => p.2)) }
      some (save cu2 db, tbl)
    else
      (deleteUser current_user db tbl).map (fun db2 => (db2, tbl))

/-- `utils.detect_face` over a snapshot of all users: the two Haar-cascade
classifiers are an oracle `verdict` on the user's id (the verdict is a pure
function of the avatar, which is determined by the row); each user's
`can_play_game` is set and the row saved. -/
def faceSweep (verdict : String → Bool) (db : List User) : List User :=
  db.foldl (fun acc u => save { u with can_play_game := verdict u.slack_id } acc) db

/-! ### System-level model

The shared persistent state is the pair of tables; the transitions are the
operations of the three loops that touch it. -/

/-- The persistent state: the `users` table and the `challenges` table. -/
def SysState : Type := List User × List (String × String)

/-- The eligible-others set of `uid` against the current `users` table (the
set `get_all_valid_users` computes for the row with that id). -/
def eligible_others (uid : String) (db : List User) : List String :=
  (db.filter (fun u => decide (u.slack_id ≠ uid) && u.can_play_game)).map
    (fun u => u.slack_id)

/-- One transition of the system over the persistent state: the Processor
consumes a queued message, the Scheduler's face-detection pass of the
directory sync re-scores a snapshot of all avatars, and the directory sync
processes one roster member (upsert or delete). -/
inductive SysStep : SysState → SysState → Prop
  | message (now r : Nat) (event : SlackEvent) (s : SysState) :
      SysStep s ((processEvent now r event s.1 s.2).1, (processEvent now r event s.1 s.2).2.1)
  | face (verdict : String → Bool) (s : SysState) :
      SysStep s (faceSweep verdict s.1, s.2)
  | sync (channels : List (String × String)) (member : SlackMember)
      (s s' : SysState) (h : sync_member channels member s.1 s.2 = some s') :
      SysStep s s'

/-- States reachable from the initial empty database. -/
def Reachable (s : SysState) : Prop :=
  Relation.ReflTransGen SysStep (([], []) : SysState) s

/-- The history-subset invariant claimed by the spec: every recorded
`(userId, targetId)` pair has `targetId` currently eligible for `userId`. -/
def HistoryInv (s : SysState) : Prop :=
  ∀ p ∈ s.2, p.2 ∈ eligible_others p.1 s.1

instance (s : SysState) : Decidable (HistoryInv s) := by
  unfold HistoryInv; infer_instance

/-! ### Helper lemmas -/

theorem getD_mod_mem {l : List String} (d : String) (r : Nat) (h : l.isEmpty = false) :
    l.getD (r % l.length) d ∈ l := by
  have hne : l ≠ [] := by
    intro e; subst e; simp at h
  have hl : 0 < l.length := List.length_pos.mpr hne
  have hm : r % l.length < l.length := Nat.mod_lt r hl
  rw [List.getD_eq_getElem?_getD, List.getElem?_eq_getElem hm]
  exact List.getElem_mem hm

theorem mem_of_filter_sub {l : List String} {H : List String} {x : String}
    (h : x ∈ l.filter (fun u => decide (u ∉ H))) : x ∈ l ∧ x ∉ H := by
  have := List.mem_filter.mp h
  exact ⟨this.1, by simpa using this.2⟩

theorem filter_empty_sub {l H : List String}
    (h : (l.filter (fun u => decide (u ∉ H))).isEmpty = true) :
    ∀ x ∈ l, x ∈ H := by
  intro x hx
  by_contra hnx
  have hmem : x ∈ l.filter (fun u => decide (u ∉ H)) :=
    List.mem_filter.mpr ⟨hx, by simpa using hnx⟩
  rw [List.isEmpty_iff] at h
  rw [h] at hmem
  exact (List.not_mem_nil x) hmem

/-! ### Rotation-algorithm lemmas -/

theorem rotStep_none {E H : List String} (r : Nat)
    (hav : (E.filter (fun u => decide (u ∉ H))).isEmpty = true)
    (hE : E.isEmpty = true) :
    rotStep E H r = none := by
  simp only [rotStep]
  rw [if_pos hav]
  dsimp only
  rw [if_pos hE]

theorem rotStep_reset {E H : List String} (r : Nat)
    (hav : (E.filter (fun u => decide (u ∉ H))).isEmpty = true)
    (hE : E.isEmpty = false) :
    rotStep E H r = some (E.getD (r % E.length) "", [E.getD (r % E.length) ""]) := by
  simp only [rotStep]
  rw [if_pos hav]
  dsimp only
  rw [if_neg (by simp [hE])]
  simp

theorem rotStep_go {E H : List String} (r : Nat)
    (hav : (E.filter (fun u => decide (u ∉ H))).isEmpty = false) :
    rotStep E H r =
      some ((E.filter (fun u => decide (u ∉ H))).getD
              (r % (E.filter (fun u => decide (u ∉ H))).length) "",
            H ++ [(E.filter (fun u => decide (u ∉ H))).getD
              (r % (E.filter (fun u => decide (u ∉ H))).length) ""]) := by
  simp only [rotStep]
  rw [if_neg (c := (E.filter (fun u => decide (u ∉ H))).isEmpty = true)
    (by simp only [hav]; exact Bool.false_ne_true)]
  dsimp only
  rw [if_neg (by simp only [hav]; exact Bool.false_ne_true)]

theorem rotStep_pick_mem {E H : List String} {r : Nat} {p : String} {H2 : List String}
    (h : rotStep E H r = some (p, H2)) : p ∈ E ∧ p ∈ H2 := by
  by_cases hav : (E.filter (fun u => decide (u ∉ H))).isEmpty
  · by_cases hE : E.isEmpty
    · rw [rotStep_none r hav hE] at h
      exact absurd h (by simp)
    · rw [rotStep_reset r hav (by simpa using hE)] at h
      obtain ⟨h1, h2⟩ := Prod.mk.injEq .. ▸ (Option.some.injEq .. ▸ h)
      subst h1; subst h2
      exact ⟨getD_mod_mem "" r (by simpa using hE), by simp⟩
  · rw [rotStep_go r (by simpa using hav)] at h
    obtain ⟨h1, h2⟩ := Prod.mk.injEq .. ▸ (Option.some.injEq .. ▸ h)
    subst h1; subst h2
    refine ⟨?_, by simp⟩
    have hm := getD_mod_mem (l := E.filter (fun u => decide (u ∉ H))) "" r
      (by simpa using hav)
    exact (mem_of_filter_sub hm).1

/-- Invariant of a rotation trace: `P` lists the picks made so far.  Every
recorded target was picked before, and either every eligible target has
already been picked (a round reset has occurred) or every pick so far is
still recorded in the history. -/
def RotInv (E H P : List String) : Prop :=
  (∀ x ∈ H, x ∈ P) ∧ ((∀ x ∈ E, x ∈ P) ∨ (∀ x ∈ P, x ∈ H))

theorem rotStep_inv {E H P : List String} {r : Nat} {p : String} {H2 : List String}
    (hinv : RotInv E H P) (h : rotStep E H r = some (p, H2)) :
    RotInv E H2 (P ++ [p]) := by
  by_cases hav : (E.filter (fun u => decide (u ∉ H))).isEmpty
  · by_cases hE : E.isEmpty
    · rw [rotStep_none r hav hE] at h
      exact absurd h (by simp)
    · rw [rotStep_reset r hav (by simpa using hE)] at h
      obtain ⟨h1, h2⟩ := Prod.mk.injEq .. ▸ (Option.some.injEq .. ▸ h)
      subst h1; subst h2
      refine ⟨?_, Or.inl ?_⟩
      · intro x hx
        simp only [List.mem_singleton] at hx
        subst hx
        simp
      · intro x hx
        have hxH : x ∈ H := filter_empty_sub hav x hx
        exact List.mem_append.mpr (Or.inl (hinv.1 x hxH))
  · rw [rotStep_go r (by simpa using hav)] at h
    obtain ⟨h1, h2⟩ := Prod.mk.injEq .. ▸ (Option.some.injEq .. ▸ h)
    subst h1; subst h2
    refine ⟨?_, ?_⟩
    · intro x hx
      rcases List.mem_append.mp hx with hx | hx
      · exact List.mem_append.mpr (Or.inl (hinv.1 x hx))
      · simp only [List.mem_singleton] at hx
        subst hx
        simp
    · rcases hinv.2 with hc | hc
      · exact Or.inl fun x hx => List.mem_append.mpr (Or.inl (hc x hx))
      · refine Or.inr fun x hx => ?_
        rcases List.mem_append.mp hx with hx | hx
        · exact List.mem_append.mpr (Or.inl (hc x hx))
        · simp only [List.mem_singleton] at hx
          subst hx
          simp

/-- While a pick `x` is still recorded in the history, the trace can only
pick `x` again after a reset, i.e. after every element of `E` has been
picked. -/
theorem rot_no_repeat_aux (E : List String) :
    ∀ (rs : List Nat) (H P : List String) (x : String),
      RotInv E H P → x ∈ H →
      ∀ m₁ m₂ : List String, (rotRun E H rs).1 = m₁ ++ x :: m₂ →
      ∀ e ∈ E, e ∈ P ++ m₁ := by
  intro rs
  induction rs with
  | nil =>
    intro H P x hinv hx m₁ m₂ hpick e he
    rw [rotRun] at hpick
    exact absurd hpick (by cases m₁ <;> simp)
  | cons r rs ih =>
    intro H P x hinv hx m₁ m₂ hpick e he
    cases hstep : rotStep E H r with
    | none =>
      simp only [rotRun, hstep] at hpick
      exact absurd hpick (by cases m₁ <;> simp)
    | some qH =>
      obtain ⟨q, H2⟩ := qH
      simp only [rotRun, hstep] at hpick
      by_cases hav : (E.filter (fun u => decide (u ∉ H))).isEmpty
      · -- a reset fires now, so E was already exhausted: E ⊆ H ⊆ P
        have hEP : ∀ y ∈ E, y ∈ P := fun y hy => hinv.1 y (filter_empty_sub hav y hy)
        exact List.mem_append.mpr (Or.inl (hEP e he))
      · have hq : q = (E.filter (fun u => decide (u ∉ H))).getD
            (r % (E.filter (fun u => decide (u ∉ H))).length) "" ∧
            H2 = H ++ [(E.filter (fun u => decide (u ∉ H))).getD
            (r % (E.filter (fun u => decide (u ∉ H))).length) ""] := by
          have := (rotStep_go (H := H) r (by simpa using hav)).symm.trans hstep
          exact ⟨((Prod.mk.injEq .. ▸ (Option.some.injEq .. ▸ this)).1).symm,
            ((Prod.mk.injEq .. ▸ (Option.some.injEq .. ▸ this)).2).symm⟩
      -- fill below
        cases m₁ with
        | nil =>
          -- the head pick q would equal x, but q is drawn from E minus H
          exfalso
          simp only [List.nil_append, List.cons.injEq] at hpick
          have hqx : q = x := hpick.1
          have hqniH : q ∉ H := by
            rw [hq.1]
            exact (mem_of_filter_sub (getD_mod_mem "" r (by simpa using hav))).2
          exact hqniH (hqx ▸ hx)
        | cons a m₁2 =>
          simp only [List.cons_append, List.cons.injEq] at hpick
          have hqa : q = a := hpick.1
          have hxH2 : x ∈ H2 := by
            rw [hq.2]
            exact List.mem_append.mpr (Or.inl hx)
          have hrec := ih H2 (P ++ [q]) x (rotStep_inv hinv hstep) hxH2 m₁2 m₂ hpick.2 e he
          rw [List.append_assoc] at hrec
          simpa [hqa] using hrec

/-- A pick can only repeat in a rotation trace after a reset, i.e. after the
whole eligible list has been picked. -/
theorem rot_round_aux (E : List String) :
    ∀ (rs : List Nat) (H P : List String),
      RotInv E H P →
      ∀ (l1 : List String) (p : String) (l2 l3 : List String),
        (rotRun E H rs).1 = l1 ++ p :: l2 ++ p :: l3 →
        ∀ e ∈ E, e ∈ P ++ l1 ++ p :: l2 := by
  intro rs
  induction rs with
  | nil =>
    intro H P hinv l1 p l2 l3 hpick e he
    rw [rotRun] at hpick
    exact absurd hpick (by cases l1 <;> simp)
  | cons r rs ih =>
    intro H P hinv l1 p l2 l3 hpick e he
    cases hstep : rotStep E H r with
    | none =>
      simp only [rotRun, hstep] at hpick
      exact absurd hpick (by cases l1 <;> simp)
    | some qH =>
      obtain ⟨q, H2⟩ := qH
      simp only [rotRun, hstep] at hpick
      cases l1 with
      | nil =>
        simp only [List.nil_append, List.cons_append, List.cons.injEq] at hpick
        have hq : q = p := hpick.1
        have hpH2 : p ∈ H2 := hq ▸ (rotStep_pick_mem hstep).2
        have hrec := rot_no_repeat_aux E rs H2 (P ++ [q]) p (rotStep_inv hinv hstep)
          (hq ▸ (rotStep_pick_mem hstep).2) l2 l3 hpick.2 e he
        rw [List.append_assoc] at hrec
        simpa [hq] using hrec
      | cons a l12 =>
        simp only [List.cons_append, List.cons.injEq] at hpick

        have hrec := ih H2 (P ++ [q]) (rotStep_inv hinv hstep) l12 p l2 l3 hpick.2 e he
        rw [List.append_assoc] at hrec
        simpa [hpick.1, List.cons_append] using hrec

/-- **C1**: for a user with a fixed eligible-others list `E` (of size at
least 2), in any sequence of calls to the challenge rotation algorithm
starting from an empty history, no target is returned a second time before
every element of `E` has been returned once: whenever the trace of picks
decomposes as `l1 ++ p :: l2 ++ p :: l3` (a repeated pick `p`), every
eligible target already occurs in `l1 ++ p :: l2`, the picks strictly before
the repetition. -/
theorem rotation_no_repeat_within_round (E : List String) (hE : 2 ≤ E.length)
    (rs : List Nat) (l1 : List String) (p : String) (l2 l3 : List String)
    (h : (rotRun E [] rs).1 = l1 ++ p :: l2 ++ p :: l3) :
    ∀ e ∈ E, e ∈ l1 ++ p :: l2 := by
  have hbase : RotInv E [] [] := ⟨by simp, Or.inr (by simp)⟩
  have hmain := rot_round_aux E rs [] [] hbase l1 p l2 l3 h
  simpa using hmain

/-- Witness for C1: with `E = [A, B]` and three calls picking indices
`0, 0, 0`, the trace is `[A, B, A]`; the repeated `A` only occurs after both
`A` and `B` have been returned. -/
theorem rotation_no_repeat_within_round_witness :
    "A" ∈ ([] : List String) ++ "A" :: ["B"]
    ∧ "B" ∈ ([] : List String) ++ "A" :: ["B"] :=
  ⟨rotation_no_repeat_within_round ["A", "B"] (by decide) [0, 0, 0] [] "A" ["B"] []
    (by decide) "A" (by decide),
   rotation_no_repeat_within_round ["A", "B"] (by decide) [0, 0, 0] [] "A" ["B"] []
    (by decide) "B" (by decide)⟩

/-- **C2**: when the rotation algorithm is invoked and the eligible list
minus the history is empty, the call deletes the user's history rows — the
returned history slice is exactly `[p]`, i.e. the history count returned to
0 before the new pick was recorded — and still returns one element of `E`
(the source guards make `E` nonempty at every invocation). -/
theorem rotation_resets_history_on_exhaustion (E H : List String) (r : Nat)
    (hE : E ≠ [])
    (hexhausted : E.filter (fun u => decide (u ∉ H)) = []) :
    ∃ p, rotStep E H r = some (p, [p]) ∧ p ∈ E := by
  have hav : (E.filter (fun u => decide (u ∉ H))).isEmpty = true := by
    rw [hexhausted]
    rfl
  have hE2 : E.isEmpty = false := by
    cases E with
    | nil => exact absurd rfl hE
    | cons a t => rfl
  exact ⟨E.getD (r % E.length) "", rotStep_reset r hav hE2, getD_mod_mem "" r hE2⟩

/-- Witness for C2: `E = [A, B]` with exhausted history `[A, B]` resets and
returns a fresh pick. -/
theorem rotation_resets_history_on_exhaustion_witness :
    ∃ p, rotStep ["A", "B"] ["A", "B"] 5 = some (p, [p]) ∧ p ∈ ["A", "B"] :=
  rotation_resets_history_on_exhaustion ["A", "B"] ["A", "B"] 5 (by decide) (by decide)

/-! ### resolve_challenge: clearing and guess matching (C3, C10) -/

/-- A normalized user row with every optional field unset; the concrete rows
in the examples below are built from it. -/
def blankUser (sid : String) : User :=
  { slack_id := sid, slack_channel := none, email := none, full_name := none,
    pref_name := none, phone := none, photo_url := none, challenge := none,
    challenge_datetime := none, can_play_game := true }

theorem save_preserves_cleared {u2 : User} {db : List User}
    (h1 : u2.challenge = none) (h2 : u2.challenge_datetime = none) :
    ∀ row ∈ save u2 db, row.slack_id = u2.slack_id →
      row.challenge = none ∧ row.challenge_datetime = none := by
  intro row hrow hid
  unfold save at hrow
  by_cases hany : db.any (fun r => r.slack_id == u2.slack_id) = true
  · rw [if_pos hany] at hrow
    obtain ⟨r, hr, hfr⟩ := List.mem_map.mp hrow
    by_cases hbeq : (r.slack_id == u2.slack_id) = true
    · rw [if_pos hbeq] at hfr
      subst hfr
      exact ⟨by simp [updateRow, h1], by simp [updateRow, h2]⟩
    · rw [if_neg hbeq] at hfr
      subst hfr
      exact absurd hid (by simpa using hbeq)
  · rw [if_neg hany] at hrow
    simp only [List.any_eq_true, not_exists, not_and] at hany
    rcases List.mem_append.mp hrow with hrow | hrow
    · exact absurd (by simpa using hid) (by simpa using hany row hrow)
    · simp only [List.mem_singleton] at hrow
      subst hrow
      exact ⟨h1, h2⟩

/-- **C3**: on every invocation of `resolve_challenge` on a user in
`Awaiting` state, the persisted row for that user has `challenge` and
`challenge_datetime` both cleared — never one without the other — and this
holds whether or not the lookup of the challenge target succeeded (the
quantification over `db` covers both the found and the missing target). -/
theorem resolve_clears_challenge_pair (event : SlackEvent) (user : User)
    (db : List User) (c : String) (hc : user.challenge = some c) :
    ∀ row ∈ (resolve_challenge event user db).1, row.slack_id = user.slack_id →
      row.challenge = none ∧ row.challenge_datetime = none := by
  intro row hrow hid
  have hdb : (resolve_challenge event user db).1 =
      save { user with challenge := none, challenge_datetime := none } db := rfl
  rw [hdb] at hrow
  exact save_preserves_cleared rfl rfl row hrow hid

/-- A concrete `Awaiting`-state row whose challenge target is absent from
the database. -/
def awaitingUserC3 : User :=
  { blankUser "U1" with challenge := some "U2", challenge_datetime := some 3 }

/-- The row that `resolve_challenge` persists for `awaitingUserC3`. -/
def clearedRowC3 : User :=
  updateRow { awaitingUserC3 with challenge := none, challenge_datetime := none }

/-- Witness for C3: a user in `Awaiting` state whose challenge target is
absent from the database still gets both fields cleared in the stored row. -/
theorem resolve_clears_challenge_pair_witness :
    clearedRowC3.challenge = none ∧ clearedRowC3.challenge_datetime = none :=
  resolve_clears_challenge_pair ⟨"U1", "steve"⟩ awaitingUserC3 [awaitingUserC3]
    "U2" rfl clearedRowC3 (by decide) (by decide)

theorem pySplitGo_no_space (t : List Char) :
    ∀ acc : List Char, (∀ c ∈ acc, pyIsSpace c = false) →
      ∀ tok ∈ pySplitGo acc t, ∀ c ∈ tok, pyIsSpace c = false := by
  induction t with
  | nil =>
    intro acc hacc tok htok c hc
    unfold pySplitGo at htok
    by_cases he : acc.isEmpty = true
    · rw [if_pos he] at htok
      exact absurd htok (by simp)
    · rw [if_neg he] at htok
      simp only [List.mem_singleton] at htok
      subst htok
      exact hacc c (by simpa using hc)
  | cons a t ih =>
    intro acc hacc tok htok c hc
    unfold pySplitGo at htok
    by_cases hs : pyIsSpace a = true
    · rw [if_pos hs] at htok
      by_cases he : acc.isEmpty = true
      · rw [if_pos he] at htok
        exact ih [] (by simp) tok htok c hc
      · rw [if_neg he] at htok
        rcases List.mem_cons.mp htok with h | h
        · subst h
          exact hacc c (by simpa using hc)
        · exact ih [] (by simp) tok h c hc
    · rw [if_neg hs] at htok
      refine ih (a :: acc) ?_ tok htok c hc
      intro d hd
      rcases List.mem_cons.mp hd with h | h
      · subst h
        simpa using hs
      · exact hacc d h

theorem token_no_space {s tok : String} (h : tok ∈ pySplitStr s) :
    ∀ c ∈ tok.toList, pyIsSpace c = false := by
  obtain ⟨l, hl, hmk⟩ := List.mem_map.mp h
  subst hmk
  intro c hc
  exact pySplitGo_no_space s.toList [] (by simp) l hl c hc

/-- Tokens produced by `all_names` contain no whitespace. -/
theorem all_names_no_space {cu : User} {tok : String} (h : tok ∈ all_names cu) :
    ∀ c ∈ tok.toList, pyIsSpace c = false := by
  unfold all_names at h
  rcases List.mem_append.mp h with h | h
  · cases hf : cu.full_name with
    | none => rw [hf] at h; exact absurd h (by simp)
    | some s => rw [hf] at h; exact token_no_space h
  · cases hf : cu.pref_name with
    | none => rw [hf] at h; exact absurd h (by simp)
    | some s => rw [hf] at h; exact token_no_space h

/-- **C10**: with the challenge target found, the guess is judged correct
iff the entire message text, lower-cased, equals one whitespace-delimited
token of the target's stored `full_name` or `pref_name`; consequently a
guess containing whitespace (such as a full two-word display name) never
matches; and the field wrappers lower-case stored names and incoming message
text at construction. -/
theorem guess_judged_by_token_match (event : SlackEvent) (user : User)
    (db : List User) (cu : User) (s u m : String)
    (hcu : User.get user.challenge db = some cu)
    (hs : s ≠ "") (hu : u ≠ "") (hm : m ≠ "") :
    ((resolve_challenge event user db).2.kind = OutKind.correct ↔
       pyLower event.message ∈ all_names cu)
    ∧ ((pyLower event.message).toList.any pyIsSpace = true →
       (resolve_challenge event user db).2.kind ≠ OutKind.correct)
    ∧ NullStringField.set false (some s) = some (pyLower s)
    ∧ mkSlackEvent u m = some ⟨pyUpper u, pyLower m⟩ := by
  have hkind : (resolve_challenge event user db).2.kind =
      (if pyLower event.message ∈ all_names cu then OutKind.correct
       else OutKind.wrong (first_name cu)) := by
    simp only [resolve_challenge]
    rw [hcu]
  have hiff : (resolve_challenge event user db).2.kind = OutKind.correct ↔
      pyLower event.message ∈ all_names cu := by
    rw [hkind]
    by_cases hmem : pyLower event.message ∈ all_names cu
    · simp [hmem]
    · simp [hmem]
  refine ⟨hiff, ?_, ?_, ?_⟩
  · intro hsp hcor
    have hmem := hiff.mp hcor
    obtain ⟨ch, hchmem, hchsp⟩ := List.any_eq_true.mp hsp
    have := all_names_no_space hmem ch hchmem
    rw [this] at hchsp
    exact absurd hchsp (by simp)
  · simp [NullStringField.set, hs]
  · simp [mkSlackEvent, StringField.set, hu, hm]

/-- Witness for C10: guessing "steve" against a target stored as
"steve smith" is judged correct; the guess "steve smith" itself contains a
space and can never be judged correct. -/
theorem guess_judged_by_token_match_witness :
    ((resolve_challenge ⟨"U1", "steve"⟩
        { blankUser "U1" with challenge := some "U2" }
        [{ blankUser "U2" with full_name := some "steve smith" }]).2.kind
          = OutKind.correct ↔
       pyLower "steve" ∈
         all_names { blankUser "U2" with full_name := some "steve smith" })
    ∧ ((pyLower "steve").toList.any pyIsSpace = true →
       (resolve_challenge ⟨"U1", "steve"⟩
        { blankUser "U1" with challenge := some "U2" }
        [{ blankUser "U2" with full_name := some "steve smith" }]).2.kind
          ≠ OutKind.correct)
    ∧ NullStringField.set false (some "Steve Smith") = some (pyLower "Steve Smith")
    ∧ mkSlackEvent "u42" "Hello There" =
        some ⟨pyUpper "u42", pyLower "Hello There"⟩ :=
  guess_judged_by_token_match ⟨"U1", "steve"⟩
    { blankUser "U1" with challenge := some "U2" }
    [{ blankUser "U2" with full_name := some "steve smith" }]
    { blankUser "U2" with full_name := some "steve smith" }
    "Steve Smith" "u42" "Hello There" (by decide) (by decide) (by decide) (by decide)

/-! ### Classification (C5, C6) -/

/-- Counterexample for C5 as stated: the claim's own input — text
`"<@U111> play"`, bot id `"U999"`, a registered direct channel — is
forwarded, but not character-for-character: `StringField` lower-cases the
message at construction, so `U111` becomes `u111`. -/
theorem classify_dm_not_verbatim :
    queue_event "U999" [{ blankUser "U9" with slack_channel := some "D7" }]
      { type := "message", subtype := none, user := "U42",
        text := "<@U111> play", channel := "D7" } =
      ClassifyResult.enqueued ⟨"U42", "<@u111> play"⟩
    ∧ ("<@u111> play" : String) ≠ "<@U111> play" := by
  constructor
  · rfl
  · decide

/-- **C5** (amended): classification of `"<@U999> play"` with bot id
`"U999"` yields a message with the event's sender (upper-case normalized)
and text `"play"`; `"<@U111> play"` yields nothing unless the channel is a
registered direct channel, in which case the raw text is forwarded
lower-cased (not verbatim). -/
theorem classify_mention_and_dm (db : List User) (sender channel : String)
    (hs : sender ≠ "") :
    (queue_event "U999" db
      { type := "message", subtype := none, user := sender,
        text := "<@U999> play", channel := channel } =
      ClassifyResult.enqueued ⟨pyUpper sender, "play"⟩)
    ∧ (is_direct_message channel db = false →
       queue_event "U999" db
        { type := "message", subtype := none, user := sender,
          text := "<@U111> play", channel := channel } = ClassifyResult.ignored)
    ∧ (is_direct_message channel db = true →
       queue_event "U999" db
        { type := "message", subtype := none, user := sender,
          text := "<@U111> play", channel := channel } =
        ClassifyResult.enqueued ⟨pyUpper sender, "<@u111> play"⟩) := by
  have hp999 : parse_direct_mention "<@U999> play" = some ("U999", "play") := rfl
  have hp111 : parse_direct_mention "<@U111> play" = some ("U111", "play") := rfl
  have hlplay : pyLower "play" = "play" := rfl
  have hl111 : pyLower "<@U111> play" = "<@u111> play" := rfl
  refine ⟨?_, ?_, ?_⟩
  · simp [queue_event, hp999, mkSlackEvent, StringField.set, hs, hlplay]
  · intro hdm
    simp [queue_event, hp111, dmBranch, hdm]
  · intro hdm
    simp [queue_event, hp111, dmBranch, hdm, mkSlackEvent, StringField.set, hs, hl111]

/-- Witness for C5 (amended) at a concrete sender and a registered direct
channel. -/
theorem classify_mention_and_dm_witness :
    (queue_event "U999" [{ blankUser "U9" with slack_channel := some "D8" }]
      { type := "message", subtype := none, user := "U42",
        text := "<@U999> play", channel := "D8" } =
      ClassifyResult.enqueued ⟨pyUpper "U42", "play"⟩)
    ∧ (is_direct_message "D8" [{ blankUser "U9" with slack_channel := some "D8" }] = false →
       queue_event "U999" [{ blankUser "U9" with slack_channel := some "D8" }]
        { type := "message", subtype := none, user := "U42",
          text := "<@U111> play", channel := "D8" } = ClassifyResult.ignored)
    ∧ (is_direct_message "D8" [{ blankUser "U9" with slack_channel := some "D8" }] = true →
       queue_event "U999" [{ blankUser "U9" with slack_channel := some "D8" }]
        { type := "message", subtype := none, user := "U42",
          text := "<@U111> play", channel := "D8" } =
        ClassifyResult.enqueued ⟨pyUpper "U42", "<@u111> play"⟩) :=
  classify_mention_and_dm [{ blankUser "U9" with slack_channel := some "D8" }]
    "U42" "D8" (by decide)

/-- Counterexample for C6 as stated: a bare mention of the bot
(`"<@U999>"`, remainder empty after trimming) arriving on a registered
direct channel is NOT discarded — the guard `user_id == BOT and message`
fails on the empty remainder and the event falls through to the
direct-message branch, which enqueues the raw (lower-cased) text. -/
theorem bare_mention_enqueued_on_direct_channel :
    queue_event "U999" [{ blankUser "U9" with slack_channel := some "D7" }]
      { type := "message", subtype := none, user := "U42",
        text := "<@U999>", channel := "D7" } =
      ClassifyResult.enqueued ⟨"U42", "<@u999>"⟩ := by
  rfl

/-- **C6** (amended): an event whose text is a leading mention of the bot's
own id with an empty trimmed remainder is discarded silently — no message
enqueued, hence no reply — when the channel is not a registered direct
channel; on a registered direct channel the raw (lower-cased) text is
enqueued instead. -/
theorem bare_mention_classification (staffBotId : String) (db : List User)
    (e : RawEvent) (htype : e.type = "message") (hsub : e.subtype = none)
    (hparse : parse_direct_mention e.text = some (staffBotId, ""))
    (huser : e.user ≠ "") (htext : e.text ≠ "") :
    (is_direct_message e.channel db = false →
      queue_event staffBotId db e = ClassifyResult.ignored)
    ∧ (is_direct_message e.channel db = true →
      queue_event staffBotId db e =
        ClassifyResult.enqueued ⟨pyUpper e.user, pyLower e.text⟩) := by
  have hq : queue_event staffBotId db e = dmBranch db e := by
    simp only [queue_event]
    rw [if_pos ⟨htype, hsub⟩, hparse]
    dsimp only
    rw [if_neg (by simp)]
  constructor
  · intro hdm
    rw [hq]
    simp [dmBranch, hdm]
  · intro hdm
    rw [hq]
    simp [dmBranch, hdm, mkSlackEvent, StringField.set, huser, htext]

/-- Witness for C6 (amended): a bare mention `"<@U999>  "` on a channel that
is not registered. -/
theorem bare_mention_classification_witness :
    (is_direct_message "D0" ([] : List User) = false →
      queue_event "U999" []
        { type := "message", subtype := none, user := "U42",
          text := "<@U999>  ", channel := "D0" } = ClassifyResult.ignored)
    ∧ (is_direct_message "D0" ([] : List User) = true →
      queue_event "U999" []
        { type := "message", subtype := none, user := "U42",
          text := "<@U999>  ", channel := "D0" } =
        ClassifyResult.enqueued ⟨pyUpper "U42", pyLower "<@U999>  "⟩) :=
  bare_mention_classification "U999" []
    { type := "message", subtype := none, user := "U42",
      text := "<@U999>  ", channel := "D0" }
    rfl rfl (by decide) (by decide) (by decide)

/-! ### Directory sync and the challenge fields (C4) -/

/-- An existing row with an active challenge, about to be re-synced. -/
def syncUserC4 : User :=
  { blankUser "U1" with
      slack_channel := some "D1"
      challenge := some "U2"
      challenge_datetime := some 5 }

/-- The roster profile of that same user. -/
def profileC4 : SlackProfile :=
  { email := some "a@b.co"
    real_name_normalized := some "Alice A"
    display_name_normalized := some "ali"
    phone := none
    image_192 := some "http://x/y.png&d=https%3A%2F%2Fz.png" }

/-- The roster entry of that same (active) user. -/
def memberC4 : SlackMember :=
  { id := some "U1", deleted := false, is_bot := false, profile := some profileC4 }

/-- **C4** — the code violates the claim.  `parse_slack_data` builds the
fresh user with `challenge = None` / `challenge_datetime = None` (its
comment: "New or updated user, dont modify challenges"), but `User._update`
overwrites every column of the existing row with the fresh object's values,
nulling any value that is falsy on the fresh object — so the directory sync
wipes an existing user's active challenge.  Here the row starts with
challenge `U2` at time 5 and ends with both fields `NULL` after one sync
iteration for that user. -/
theorem sync_wipes_challenge_fields :
    syncUserC4.challenge = some "U2" ∧ syncUserC4.challenge_datetime = some 5 ∧
    (sync_member [("U1", "D1")] memberC4 [syncUserC4] []).map
        (fun s => s.1.map (fun row => (row.challenge, row.challenge_datetime)))
      = some [(none, none)] := by
  refine ⟨rfl, rfl, rfl⟩

/-! ### Insert-then-use ordering in the issuing path (C8) -/

theorem issueCands_fst_sub {user : User} {db : List User}
    {tbl : List (String × String)} {x : String}
    (h : x ∈ (issueCands user db tbl).1) : x ∈ get_all_other_users user db := by
  simp only [issueCands] at h
  by_cases hav : ((get_all_other_users user db).filter
      (fun u => decide (u ∉ userHistory user.slack_id tbl))).isEmpty = true
  · rw [if_pos hav] at h
    exact h
  · rw [if_neg hav] at h
    exact (List.mem_filter.mp h).1

theorem issueCands_fst_nonempty {user : User} {db : List User}
    {tbl : List (String × String)}
    (hE : (get_all_other_users user db).isEmpty = false) :
    (issueCands user db tbl).1.isEmpty = false := by
  simp only [issueCands]
  by_cases hav : ((get_all_other_users user db).filter
      (fun u => decide (u ∉ userHistory user.slack_id tbl))).isEmpty = true
  · rw [if_pos hav]
    exact hE
  · rw [if_neg hav]
    simpa using hav

theorem issuePick_mem {user : User} {db : List User} (tbl : List (String × String))
    (r : Nat) (hE : (get_all_other_users user db).isEmpty = false) :
    issuePick user db tbl r ∈ (issueCands user db tbl).1 :=
  getD_mod_mem "" r (issueCands_fst_nonempty hE)

theorem issue_eq_found {now r : Nat} {event : SlackEvent} {user : User}
    {db : List User} {tbl : List (String × String)} {ncu : User}
    (hplay : pyStartsWith event.message PLAY_GAME = true)
    (hE : (get_all_other_users user db).isEmpty = false)
    (hget : User.get (some (issuePick user db tbl r)) db = some ncu) :
    issue_challenge now r event user db tbl =
      (save { user with
          challenge := some (issuePick user db tbl r)
          challenge_datetime := some now } db,
       (issueCands user db tbl).2 ++ [(user.slack_id, issuePick user db tbl r)],
       [⟨user.slack_channel, .photo ncu.photo_url⟩]) := by
  simp only [issue_challenge]
  rw [if_pos hplay, if_neg (by simp [hE]), hget]

theorem issue_eq_missing {now r : Nat} {event : SlackEvent} {user : User}
    {db : List User} {tbl : List (String × String)}
    (hplay : pyStartsWith event.message PLAY_GAME = true)
    (hE : (get_all_other_users user db).isEmpty = false)
    (hget : User.get (some (issuePick user db tbl r)) db = none) :
    issue_challenge now r event user db tbl =
      (db, (issueCands user db tbl).2 ++ [(user.slack_id, issuePick user db tbl r)],
       [⟨user.slack_channel, .issueBroken⟩]) := by
  simp only [issue_challenge]
  rw [if_pos hplay, if_neg (by simp [hE]), hget]

theorem userHistory_append (uid : String) (a b : List (String × String)) :
    userHistory uid (a ++ b) = userHistory uid a ++ userHistory uid b := by
  simp [userHistory, List.filter_append]

theorem userHistory_last_mem (uid p : String) (t : List (String × String)) :
    p ∈ userHistory uid (t ++ [(uid, p)]) := by
  rw [userHistory_append]
  have h1 : userHistory uid [(uid, p)] = [p] := by simp [userHistory]
  rw [h1]
  simp

/-- **C8**: in the challenge-issuing path, the history row
`(userId, chosen)` is in the resulting `challenges` table no matter how the
subsequent target lookup went — the INSERT precedes the lookup; on the error
branch the users table is unchanged and no challenge prompt is sent, yet the
pick stays recorded, so a retry within the same round (i.e. whose available
set is still nonempty) cannot choose that target again. -/
theorem issue_records_pick_before_lookup (now r : Nat) (event : SlackEvent)
    (user : User) (db : List User) (tbl : List (String × String))
    (hplay : pyStartsWith event.message PLAY_GAME = true)
    (hE : (get_all_other_users user db).isEmpty = false) :
    ((user.slack_id, issuePick user db tbl r) ∈
        (issue_challenge now r event user db tbl).2.1)
    ∧ (User.get (some (issuePick user db tbl r)) db = none →
        (issue_challenge now r event user db tbl).1 = db
        ∧ ∀ m ∈ (issue_challenge now r event user db tbl).2.2,
            isPhoto m.kind = false)
    ∧ (∀ (now2 r2 : Nat) (e2 : SlackEvent),
        pyStartsWith e2.message PLAY_GAME = true →
        ((get_all_other_users user db).filter (fun x =>
            decide (x ∉ userHistory user.slack_id
              (issue_challenge now r event user db tbl).2.1))).isEmpty = false →
        ∀ q, (issue_challenge now2 r2 e2 user db
                (issue_challenge now r event user db tbl).2.1).2.1 =
              (issue_challenge now r event user db tbl).2.1 ++ [(user.slack_id, q)] →
        q ≠ issuePick user db tbl r) := by
  have htbl : (issue_challenge now r event user db tbl).2.1 =
      (issueCands user db tbl).2 ++ [(user.slack_id, issuePick user db tbl r)] := by
    cases hget : User.get (some (issuePick user db tbl r)) db with
    | none => rw [issue_eq_missing hplay hE hget]
    | some ncu => rw [issue_eq_found hplay hE hget]
  refine ⟨?_, ?_, ?_⟩
  · rw [htbl]
    simp
  · intro hget
    rw [issue_eq_missing hplay hE hget]
    refine ⟨rfl, ?_⟩
    intro m hm
    simp only [List.mem_singleton] at hm
    subst hm
    rfl
  · intro now2 r2 e2 hplay2 havail q heq
    have hpmem : issuePick user db tbl r ∈
        userHistory user.slack_id (issue_challenge now r event user db tbl).2.1 := by
      rw [htbl]
      exact userHistory_last_mem _ _ _
    have hcands2 : issueCands user db (issue_challenge now r event user db tbl).2.1 =
        ((get_all_other_users user db).filter (fun x =>
          decide (x ∉ userHistory user.slack_id
            (issue_challenge now r event user db tbl).2.1)),
         (issue_challenge now r event user db tbl).2.1) := by
      simp only [issueCands]
      rw [if_neg (by simp only [havail]; exact Bool.false_ne_true)]
    have htbl2 : (issue_challenge now2 r2 e2 user db
        (issue_challenge now r event user db tbl).2.1).2.1 =
        (issueCands user db (issue_challenge now r event user db tbl).2.1).2 ++
          [(user.slack_id,
            issuePick user db (issue_challenge now r event user db tbl).2.1 r2)] := by
      cases hget2 : User.get (some
          (issuePick user db (issue_challenge now r event user db tbl).2.1 r2)) db with
      | none => rw [issue_eq_missing hplay2 hE hget2]
      | some ncu => rw [issue_eq_found hplay2 hE hget2]
    rw [htbl2, hcands2] at heq
    have hq : q = issuePick user db (issue_challenge now r event user db tbl).2.1 r2 := by
      have hcancel := List.append_cancel_left heq
      simp only [List.cons.injEq, Prod.mk.injEq, true_and, and_true] at hcancel
      exact hcancel.symm
    have hpick2 := issuePick_mem (issue_challenge now r event user db tbl).2.1 r2 hE
    rw [hcands2] at hpick2
    have hnot := (mem_of_filter_sub hpick2).2
    intro hqp
    rw [hq] at hqp
    exact hnot (hqp ▸ hpmem)

/-- Witness for C8: user `U1` with the single eligible other `U2` and an
empty history — the pick is recorded in the resulting table. -/
theorem issue_records_pick_before_lookup_witness :
    (((blankUser "U1").slack_id, issuePick (blankUser "U1") [blankUser "U2"] [] 0) ∈
        (issue_challenge 0 0 ⟨"U1", "play"⟩ (blankUser "U1") [blankUser "U2"] []).2.1) :=
  (issue_records_pick_before_lookup 0 0 ⟨"U1", "play"⟩ (blankUser "U1")
    [blankUser "U2"] [] (by decide) (by decide)).1

/-! ### The expiry sweep (C7) -/

/-- An expired row whose challenge target is not in the database. -/
def expiredUserC7 : User :=
  { blankUser "U1" with
      slack_channel := some "D1"
      challenge := some "U9"
      challenge_datetime := some 0 }

/-- Counterexample for C7 as stated: a user whose `challenge_datetime` is
older than the timeout but whose challenge target is missing from the
database is skipped by the sweep — the challenge fields are NOT cleared and
no notification is sent (the source logs and moves on), where the claim
demands a clear, a persist and exactly one notification. -/
theorem expiry_skips_missing_target :
    clear_challenges 30 100 [expiredUserC7] = some ([expiredUserC7], [])
    ∧ expiredUserC7.challenge = some "U9"
    ∧ expiredUserC7.challenge_datetime = some 0
    ∧ 0 + 30 < 100 := by
  refine ⟨rfl, rfl, rfl, by decide⟩

/-- Number of expiry notifications addressed to a given channel. -/
def timedOutCount (ch : Option String) (out : List Out) : Nat :=
  out.countP (fun m => m.channel == ch && isTimedOut m.kind)

/-- The database shape maintained by the schema and the field wrappers:
primary-key-unique `slack_id`s, and no empty-string channels
(`NullStringField` never stores `""`). -/
def GoodDB (db : List User) : Prop :=
  (db.map (fun u => u.slack_id)).Nodup ∧ ∀ v ∈ db, v.slack_channel ≠ some ""

theorem nodup_sid_elim {db : List User}
    (hnd : (db.map (fun u => u.slack_id)).Nodup) :
    ∀ v ∈ db, ∀ w ∈ db, v.slack_id = w.slack_id → v = w := by
  induction db with
  | nil =>
    intro v hv
    exact absurd hv (by simp)
  | cons a t ih =>
    simp only [List.map_cons, List.nodup_cons] at hnd
    intro v hv w hw hsid
    rcases List.mem_cons.mp hv with hv1 | hv1 <;> rcases List.mem_cons.mp hw with hw1 | hw1
    · rw [hv1, hw1]
    · exfalso
      have hmem : w.slack_id ∈ t.map (fun u => u.slack_id) :=
        List.mem_map_of_mem _ hw1
      rw [← hsid, hv1] at hmem
      exact hnd.1 hmem
    · exfalso
      have hmem : v.slack_id ∈ t.map (fun u => u.slack_id) :=
        List.mem_map_of_mem _ hv1
      rw [hsid, hw1] at hmem
      exact hnd.1 hmem
    · exact ih hnd.2 v hv1 w hw1 hsid

theorem updateRow_channel {u2 : User} (h : u2.slack_channel ≠ some "") :
    (updateRow u2).slack_channel = u2.slack_channel := by
  unfold updateRow
  cases hc : u2.slack_channel with
  | none => rfl
  | some s =>
    have hs : s ≠ "" := by
      intro e
      exact h (by rw [hc, e])
    simp [hs]

theorem save_eq_map {u2 : User} {db : List User}
    (h : ∃ v ∈ db, v.slack_id = u2.slack_id) :
    save u2 db =
      db.map (fun r => if r.slack_id == u2.slack_id then updateRow u2 else r) := by
  unfold save
  rw [if_pos]
  rw [List.any_eq_true]
  obtain ⟨v, hv, hsid⟩ := h
  exact ⟨v, hv, by simp [hsid]⟩

theorem User_get_some_elim {s : String} {db : List User} {u : User}
    (h : User.get (some s) db = some u) : u ∈ db ∧ u.slack_id = s := by
  simp only [User.get] at h
  by_cases hs : s = ""
  · rw [if_pos hs] at h
    exact absurd h (by simp)
  · rw [if_neg hs] at h
    exact ⟨List.mem_of_find?_eq_some h, by simpa using List.find?_some h⟩

theorem User_get_of_exists {s : String} {db : List User} (hs : s ≠ "")
    (h : ∃ v ∈ db, v.slack_id = s) : ∃ u, User.get (some s) db = some u := by
  simp only [User.get]
  rw [if_neg hs]
  obtain ⟨v, hv, hsid⟩ := h
  have hsome : (db.find? (fun r => r.slack_id == s)).isSome := by
    rw [List.find?_isSome]
    exact ⟨v, hv, by simp [hsid]⟩
  exact Option.isSome_iff_exists.mp hsome

/-- Structural facts about the save of a row whose `slack_id` and
`slack_channel` agree with an existing row `u`: the id column is unchanged,
channels are stable per id, untouched rows survive, and the written row is
present. -/
theorem save_facts (u2 : User) {db : List User} {u : User} (hdb : GoodDB db)
    (hu : u ∈ db) (hsid : u2.slack_id = u.slack_id)
    (hch : u2.slack_channel = u.slack_channel) :
    GoodDB (save u2 db)
    ∧ (save u2 db).map (fun x => x.slack_id) = db.map (fun x => x.slack_id)
    ∧ (∀ w ∈ save u2 db, ∃ v ∈ db, v.slack_id = w.slack_id ∧
        w.slack_channel = v.slack_channel)
    ∧ (∀ x ∈ db, x.slack_id ≠ u2.slack_id → x ∈ save u2 db)
    ∧ updateRow u2 ∈ save u2 db := by
  have hex : ∃ v ∈ db, v.slack_id = u2.slack_id := ⟨u, hu, hsid.symm⟩
  have hne : u2.slack_channel ≠ some "" := by
    rw [hch]
    exact hdb.2 u hu
  have hurch : (updateRow u2).slack_channel = u2.slack_channel := updateRow_channel hne
  have hursid : (updateRow u2).slack_id = u2.slack_id := rfl
  have hmap := save_eq_map hex
  have hsidmap : (save u2 db).map (fun x => x.slack_id) =
      db.map (fun x => x.slack_id) := by
    rw [hmap, List.map_map]
    refine List.map_congr_left ?_
    intro r hr
    simp only [Function.comp_apply]
    by_cases hbeq : (r.slack_id == u2.slack_id) = true
    · rw [if_pos hbeq, hursid]
      exact (by simpa using hbeq : r.slack_id = u2.slack_id).symm
    · rw [if_neg hbeq]
  have hcases : ∀ w ∈ save u2 db, w = updateRow u2 ∨ (w ∈ db ∧ w ≠ updateRow u2 ∨ w ∈ db) := by
    intro w hw
    rw [hmap] at hw
    obtain ⟨r, hr, hfr⟩ := List.mem_map.mp hw
    by_cases hbeq : (r.slack_id == u2.slack_id) = true
    · rw [if_pos hbeq] at hfr
      exact Or.inl hfr.symm
    · rw [if_neg hbeq] at hfr
      exact Or.inr (Or.inr (hfr ▸ hr))
  refine ⟨⟨?_, ?_⟩, hsidmap, ?_, ?_, ?_⟩
  · rw [hsidmap]
    exact hdb.1
  · intro w hw
    rw [hmap] at hw
    obtain ⟨r, hr, hfr⟩ := List.mem_map.mp hw
    by_cases hbeq : (r.slack_id == u2.slack_id) = true
    · rw [if_pos hbeq] at hfr
      rw [← hfr, hurch]
      exact hne
    · rw [if_neg hbeq] at hfr
      rw [← hfr]
      exact hdb.2 r hr
  · intro w hw
    rw [hmap] at hw
    obtain ⟨r, hr, hfr⟩ := List.mem_map.mp hw
    by_cases hbeq : (r.slack_id == u2.slack_id) = true
    · rw [if_pos hbeq] at hfr
      refine ⟨u, hu, ?_, ?_⟩
      · rw [← hfr, hursid, hsid]
      · rw [← hfr, hurch, hch]
    · rw [if_neg hbeq] at hfr
      exact ⟨r, hr, by rw [hfr], by rw [hfr]⟩
  · intro x hx hxne
    rw [hmap]
    have hxeq : (if (x.slack_id == u2.slack_id) = true then updateRow u2 else x) = x :=
      if_neg (by simpa using hxne)
    rw [← hxeq]
    exact List.mem_map_of_mem _ hx
  · rw [hmap]
    have hueq : (if (u.slack_id == u2.slack_id) = true then updateRow u2 else u) =
        updateRow u2 :=
      if_pos (by simp [hsid])
    have hmem : (if (u.slack_id == u2.slack_id) = true then updateRow u2 else u) ∈
        List.map (fun r => if (r.slack_id == u2.slack_id) = true then updateRow u2 else r)
          db :=
      List.mem_map_of_mem _ hu
    rw [hueq] at hmem
    exact hmem

/-- An expired row targeting `U2`, for the amended-C7 witness. -/
def expiredUserC7way : User :=
  { blankUser "U1" with
      slack_channel := some "D1"
      challenge := some "U2"
      challenge_datetime := some 0 }

theorem clearGo_cons_nochal {timeout now : Nat} {row : User} {rest db : List User}
    {out : List Out} (h : row.challenge = none) :
    clearGo timeout now (row :: rest) db out = clearGo timeout now rest db out := by
  simp only [clearGo, h]

theorem clearGo_cons_fresh {timeout now : Nat} {row : User} {rest db : List User}
    {out : List Out} {c : String} {t : Nat} (hc : row.challenge = some c)
    (hd : row.challenge_datetime = some t) (hfresh : ¬ (t + timeout ≤ now)) :
    clearGo timeout now (row :: rest) db out = clearGo timeout now rest db out := by
  simp only [clearGo, hc, hd]
  rw [if_neg hfresh]

theorem clearGo_cons_missing1 {timeout now : Nat} {row : User} {rest db : List User}
    {out : List Out} {c : String} {t : Nat} (hc : row.challenge = some c)
    (hd : row.challenge_datetime = some t) (hexp : t + timeout ≤ now)
    (hcu : User.get (some c) db = none) :
    clearGo timeout now (row :: rest) db out = clearGo timeout now rest db out := by
  simp only [clearGo, hc, hd]
  rw [if_pos hexp, hcu]

theorem clearGo_cons_missing2 {timeout now : Nat} {row : User} {rest db : List User}
    {out : List Out} {c : String} {t : Nat} {cu : User} (hc : row.challenge = some c)
    (hd : row.challenge_datetime = some t) (hexp : t + timeout ≤ now)
    (hcu : User.get (some c) db = some cu)
    (hu : User.get (some row.slack_id) db = none) :
    clearGo timeout now (row :: rest) db out = clearGo timeout now rest db out := by
  simp only [clearGo, hc, hd]
  rw [if_pos hexp, hcu, hu]

theorem clearGo_cons_fire {timeout now : Nat} {row : User} {rest db : List User}
    {out : List Out} {c : String} {t : Nat} {cu u : User} (hc : row.challenge = some c)
    (hd : row.challenge_datetime = some t) (hexp : t + timeout ≤ now)
    (hcu : User.get (some c) db = some cu)
    (hu : User.get (some row.slack_id) db = some u) :
    clearGo timeout now (row :: rest) db out =
      clearGo timeout now rest
        (save { u with challenge := none, challenge_datetime := none } db)
        (out ++ [⟨u.slack_channel, .timedOut (first_name cu)⟩]) := by
  simp only [clearGo, hc, hd]
  rw [if_pos hexp, hcu, hu]

theorem timedOutCount_append (ch : Option String) (a b : List Out) :
    timedOutCount ch (a ++ b) = timedOutCount ch a + timedOutCount ch b := by
  simp [timedOutCount, List.countP_append]

theorem timedOutCount_single_ne {ch ch2 : Option String} {kind : OutKind}
    (h : ch2 ≠ ch) : timedOutCount ch [⟨ch2, kind⟩] = 0 := by
  have hbeq : (ch2 == ch) = false := by
    simpa using h
  simp [timedOutCount, List.countP_cons, List.countP_nil, hbeq]

theorem timedOutCount_single_timed (ch : Option String) (name : Option String) :
    timedOutCount ch [⟨ch, .timedOut name⟩] = 1 := by
  simp [timedOutCount, List.countP_cons, List.countP_nil, isTimedOut]

/-- Frame part of the sweep: rows whose lookups emit messages different from
channel `ch` neither touch a row outside the processed id set nor change the
`ch` notification count. -/
theorem clearGo_frame (timeout now : Nat) (ch : Option String) :
    ∀ (rows db : List User) (out : List Out),
      GoodDB db →
      (∀ r ∈ rows, r.challenge.isSome = true → r.challenge_datetime.isSome = true) →
      (∀ r ∈ rows, ∀ v ∈ db, v.slack_id = r.slack_id → v.slack_channel ≠ ch) →
      ∃ db2 out2, clearGo timeout now rows db out = some (db2, out2)
        ∧ (∀ x ∈ db, x.slack_id ∉ rows.map (fun r => r.slack_id) → x ∈ db2)
        ∧ timedOutCount ch out2 = timedOutCount ch out := by
  intro rows
  induction rows with
  | nil =>
    intro db out hdb hdt hch
    exact ⟨db, out, rfl, fun x hx _ => hx, rfl⟩
  | cons row rest ih =>
    intro db out hdb hdt hch
    have hdt2 : ∀ r ∈ rest, r.challenge.isSome = true → r.challenge_datetime.isSome = true :=
      fun r hr => hdt r (List.mem_cons_of_mem _ hr)
    have hch2 : ∀ r ∈ rest, ∀ v ∈ db, v.slack_id = r.slack_id → v.slack_channel ≠ ch :=
      fun r hr => hch r (List.mem_cons_of_mem _ hr)
    have hweak : ∀ x : User, x.slack_id ∉ (row :: rest).map (fun r => r.slack_id) →
        x.slack_id ∉ rest.map (fun r => r.slack_id) := by
      intro x hx hmem
      exact hx (by simp only [List.map_cons, List.mem_cons]; exact Or.inr hmem)
    cases hchal : row.challenge with
    | none =>
      rw [clearGo_cons_nochal hchal]
      obtain ⟨db2, out2, heq, hframe, hcnt⟩ := ih db out hdb hdt2 hch2
      exact ⟨db2, out2, heq, fun x hx hnx => hframe x hx (hweak x hnx), hcnt⟩
    | some c0 =>
      cases hdt0 : row.challenge_datetime with
      | none =>
        exact absurd (hdt row (List.mem_cons_self _ _) (by simp [hchal]))
          (by simp [hdt0])
      | some t0 =>
        by_cases hexp0 : t0 + timeout ≤ now
        · cases hcu : User.get (some c0) db with
          | none =>
            rw [clearGo_cons_missing1 hchal hdt0 hexp0 hcu]
            obtain ⟨db2, out2, heq, hframe, hcnt⟩ := ih db out hdb hdt2 hch2
            exact ⟨db2, out2, heq, fun x hx hnx => hframe x hx (hweak x hnx), hcnt⟩
          | some cu0 =>
            cases hu0 : User.get (some row.slack_id) db with
            | none =>
              rw [clearGo_cons_missing2 hchal hdt0 hexp0 hcu hu0]
              obtain ⟨db2, out2, heq, hframe, hcnt⟩ := ih db out hdb hdt2 hch2
              exact ⟨db2, out2, heq, fun x hx hnx => hframe x hx (hweak x hnx), hcnt⟩
            | some u0 =>
              rw [clearGo_cons_fire hchal hdt0 hexp0 hcu hu0]
              obtain ⟨hu0mem, hu0sid⟩ := User_get_some_elim hu0
              obtain ⟨G1, G2, G3, G4, G5⟩ := save_facts
                { u0 with challenge := none, challenge_datetime := none }
                hdb hu0mem rfl rfl
              have hch3 : ∀ r ∈ rest, ∀ v ∈
                  save { u0 with challenge := none, challenge_datetime := none } db,
                  v.slack_id = r.slack_id → v.slack_channel ≠ ch := by
                intro r hr v hv hsid
                obtain ⟨w, hw, hwsid, hwch⟩ := G3 v hv
                rw [hwch]
                exact hch r (List.mem_cons_of_mem _ hr) w hw (hwsid.trans hsid)
              obtain ⟨db2, out2, heq, hframe, hcnt⟩ :=
                ih (save { u0 with challenge := none, challenge_datetime := none } db)
                  (out ++ [⟨u0.slack_channel, .timedOut (first_name cu0)⟩]) G1 hdt2 hch3
              refine ⟨db2, out2, heq, ?_, ?_⟩
              · intro x hx hnx
                have hxne : x.slack_id ≠ u0.slack_id := by
                  rw [hu0sid]
                  intro hcontra
                  refine hnx ?_
                  simp only [List.map_cons, List.mem_cons]
                  exact Or.inl hcontra
                exact hframe x (G4 x hx hxne) (hweak x hnx)
              · rw [hcnt, timedOutCount_append,
                  timedOutCount_single_ne
                    (hch row (List.mem_cons_self _ _) u0 hu0mem hu0sid), add_zero]
        · rw [clearGo_cons_fresh hchal hdt0 hexp0]
          obtain ⟨db2, out2, heq, hframe, hcnt⟩ := ih db out hdb hdt2 hch2
          exact ⟨db2, out2, heq, fun x hx hnx => hframe x hx (hweak x hnx), hcnt⟩

/-- Core of the amended C7: processing the selected rows clears the expired
user's row and emits exactly one notification on their channel, provided the
target row exists and channels are unique. -/
theorem clearGo_clears_once (timeout now : Nat) (ch : Option String) (uRow : User)
    (c : String) (t : Nat) (hc : uRow.challenge = some c)
    (ht : uRow.challenge_datetime = some t) (hexp : t + timeout ≤ now)
    (hid0 : uRow.slack_id ≠ "") (hc0 : c ≠ "") :
    ∀ (rows db : List User) (out : List Out),
      GoodDB db →
      (rows.map (fun r => r.slack_id)).Nodup →
      (∀ r ∈ rows, r.challenge.isSome = true → r.challenge_datetime.isSome = true) →
      uRow ∈ rows →
      (∃ v ∈ db, v.slack_id = uRow.slack_id ∧ v.slack_channel = ch) →
      (∃ v ∈ db, v.slack_id = c) →
      (∀ r ∈ rows, r.slack_id ≠ uRow.slack_id →
        ∀ v ∈ db, v.slack_id = r.slack_id → v.slack_channel ≠ ch) →
      ∃ db2 out2, clearGo timeout now rows db out = some (db2, out2)
        ∧ (∃ x ∈ db2, x.slack_id = uRow.slack_id ∧ x.challenge = none ∧
            x.challenge_datetime = none)
        ∧ timedOutCount ch out2 = timedOutCount ch out + 1 := by
  intro rows
  induction rows with
  | nil =>
    intro db out _ _ _ huRow
    exact absurd huRow (by simp)
  | cons row rest ih =>
    intro db out hdb hrownd hdt huRow hcur htar hchoth
    have hrownd2 : (row.slack_id :: rest.map (fun r => r.slack_id)).Nodup := by
      simpa only [List.map_cons] using hrownd
    have hnd2 := List.nodup_cons.mp hrownd2
    have hdt2 : ∀ r ∈ rest, r.challenge.isSome = true →
        r.challenge_datetime.isSome = true :=
      fun r hr => hdt r (List.mem_cons_of_mem _ hr)
    by_cases hrid : row.slack_id = uRow.slack_id
    · -- the head row is the expired user's row
      have he : uRow = row := by
        rcases List.mem_cons.mp huRow with he | he
        · exact he
        · exfalso
          have : uRow.slack_id ∈ rest.map (fun r => r.slack_id) :=
            List.mem_map_of_mem _ he
          rw [← hrid] at this
          exact hnd2.1 this
      subst he
      obtain ⟨cu, hcu⟩ := User_get_of_exists hc0 htar
      obtain ⟨v, hv, hvsid, hvch⟩ := hcur
      obtain ⟨u1, hu1⟩ := User_get_of_exists hid0 ⟨v, hv, hvsid⟩
      rw [clearGo_cons_fire hc ht hexp hcu hu1]
      obtain ⟨hu1mem, hu1sid⟩ := User_get_some_elim hu1
      have hu1v : u1 = v := nodup_sid_elim hdb.1 u1 hu1mem v hv (by rw [hu1sid, hvsid])
      have hchan : u1.slack_channel = ch := by
        rw [hu1v]
        exact hvch
      obtain ⟨G1, G2, G3, G4, G5⟩ := save_facts
        { u1 with challenge := none, challenge_datetime := none }
        hdb hu1mem rfl rfl
      have hch3 : ∀ r ∈ rest, ∀ w ∈
          save { u1 with challenge := none, challenge_datetime := none } db,
          w.slack_id = r.slack_id → w.slack_channel ≠ ch := by
        intro r hr w hw hsidw
        obtain ⟨w0, hw0, hw0sid, hw0ch⟩ := G3 w hw
        rw [hw0ch]
        have hrne : r.slack_id ≠ uRow.slack_id := by
          intro hcontra
          exact hnd2.1 (hcontra ▸ List.mem_map_of_mem (fun r => r.slack_id) hr)
        exact hchoth r (List.mem_cons_of_mem _ hr) hrne w0 hw0 (hw0sid.trans hsidw)
      obtain ⟨db2, out2, heq, hframe, hcnt⟩ := clearGo_frame timeout now ch rest
        (save { u1 with challenge := none, challenge_datetime := none } db)
        (out ++ [⟨u1.slack_channel, .timedOut (first_name cu)⟩]) G1 hdt2 hch3
      refine ⟨db2, out2, heq, ?_, ?_⟩
      · refine ⟨updateRow { u1 with challenge := none, challenge_datetime := none },
          hframe _ G5 ?_, ?_, rfl, rfl⟩
        · show u1.slack_id ∉ rest.map (fun r => r.slack_id)
          rw [hu1sid]
          exact hnd2.1
        · show u1.slack_id = uRow.slack_id
          exact hu1sid
      · rw [hcnt, timedOutCount_append, hchan, timedOutCount_single_timed]
    · -- the head row belongs to someone else
      have huRow2 : uRow ∈ rest := by
        rcases List.mem_cons.mp huRow with he | he
        · exfalso
          apply hrid
          rw [he]
        · exact he
      have hrne : row.slack_id ≠ uRow.slack_id := hrid
      cases hchal : row.challenge with
      | none =>
        rw [clearGo_cons_nochal hchal]
        exact ih db out hdb hnd2.2 hdt2 huRow2 hcur htar
          (fun r hr => hchoth r (List.mem_cons_of_mem _ hr))
      | some c0 =>
        cases hdt0 : row.challenge_datetime with
        | none =>
          exact absurd (hdt row (List.mem_cons_self _ _) (by simp [hchal]))
            (by simp [hdt0])
        | some t0 =>
          by_cases hexp0 : t0 + timeout ≤ now
          · cases hcu0 : User.get (some c0) db with
            | none =>
              rw [clearGo_cons_missing1 hchal hdt0 hexp0 hcu0]
              exact ih db out hdb hnd2.2 hdt2 huRow2 hcur htar
                (fun r hr => hchoth r (List.mem_cons_of_mem _ hr))
            | some cu0 =>
              cases hu0 : User.get (some row.slack_id) db with
              | none =>
                rw [clearGo_cons_missing2 hchal hdt0 hexp0 hcu0 hu0]
                exact ih db out hdb hnd2.2 hdt2 huRow2 hcur htar
                  (fun r hr => hchoth r (List.mem_cons_of_mem _ hr))
              | some u0 =>
                rw [clearGo_cons_fire hchal hdt0 hexp0 hcu0 hu0]
                obtain ⟨hu0mem, hu0sid⟩ := User_get_some_elim hu0
                obtain ⟨G1, G2, G3, G4, G5⟩ := save_facts
                  { u0 with challenge := none, challenge_datetime := none }
                  hdb hu0mem rfl rfl
                have hcur2 : ∃ w ∈
                    save { u0 with challenge := none, challenge_datetime := none } db,
                    w.slack_id = uRow.slack_id ∧ w.slack_channel = ch := by
                  obtain ⟨v, hv, hvsid, hvch⟩ := hcur
                  have hvne : v.slack_id ≠ u0.slack_id := by
                    rw [hvsid, hu0sid]
                    exact fun h => hrne h.symm
                  exact ⟨v, G4 v hv hvne, hvsid, hvch⟩
                have htar2 : ∃ w ∈
                    save { u0 with challenge := none, challenge_datetime := none } db,
                    w.slack_id = c := by
                  obtain ⟨w, hw, hwsid⟩ := htar
                  have hcmem : c ∈ db.map (fun x => x.slack_id) := by
                    rw [← hwsid]
                    exact List.mem_map_of_mem _ hw
                  rw [← G2] at hcmem
                  obtain ⟨w2, hw2, hw2sid⟩ := List.mem_map.mp hcmem
                  exact ⟨w2, hw2, hw2sid⟩
                have hchoth2 : ∀ r ∈ rest, r.slack_id ≠ uRow.slack_id → ∀ w ∈
                    save { u0 with challenge := none, challenge_datetime := none } db,
                    w.slack_id = r.slack_id → w.slack_channel ≠ ch := by
                  intro r hr hrne2 w hw hsidw
                  obtain ⟨w0, hw0, hw0sid, hw0ch⟩ := G3 w hw
                  rw [hw0ch]
                  exact hchoth r (List.mem_cons_of_mem _ hr) hrne2 w0 hw0
                    (hw0sid.trans hsidw)
                obtain ⟨db2, out2, heq, hcleared, hcnt⟩ := ih
                  (save { u0 with challenge := none, challenge_datetime := none } db)
                  (out ++ [⟨u0.slack_channel, .timedOut (first_name cu0)⟩])
                  G1 hnd2.2 hdt2 huRow2 hcur2 htar2 hchoth2
                refine ⟨db2, out2, heq, hcleared, ?_⟩
                rw [hcnt, timedOutCount_append,
                  timedOutCount_single_ne
                    (hchoth row (List.mem_cons_self _ _) hrne u0 hu0mem hu0sid),
                  add_zero]
          · rw [clearGo_cons_fresh hchal hdt0 hexp0]
            exact ih db out hdb hnd2.2 hdt2 huRow2 hcur htar
              (fun r hr => hchoth r (List.mem_cons_of_mem _ hr))

/-- **C7** (amended): for every user with a non-null challenge whose
`challenge_datetime` is older than the configured timeout at sweep time,
PROVIDED the challenge target's record still exists, the sweep clears both
challenge fields in the stored row and sends exactly one "timed out"
notification on that user's channel — never more than one per expired
challenge.  (When the target row is missing the source logs and skips: see
the counterexample.)  The `GoodDB`-style hypotheses are the schema's UNIQUE
constraints on `slack_id` and `slack_channel` and the `NullStringField`
normalization; the datetime hypothesis rules out the `strptime(None)` crash
on malformed rows. -/
theorem expiry_clears_and_notifies_once (timeout now : Nat) (db : List User)
    (u : User) (c : String) (t : Nat)
    (hnd : (db.map (fun x => x.slack_id)).Nodup)
    (hnorm : ∀ v ∈ db, v.slack_channel ≠ some "")
    (hu : u ∈ db) (hc : u.challenge = some c) (ht : u.challenge_datetime = some t)
    (hexp : t + timeout < now) (hid0 : u.slack_id ≠ "") (hc0 : c ≠ "")
    (htar : ∃ v ∈ db, v.slack_id = c)
    (hch : ∀ v ∈ db, v.slack_id ≠ u.slack_id → v.slack_channel ≠ u.slack_channel)
    (hdtall : ∀ v ∈ db, v.challenge.isSome = true → v.challenge_datetime.isSome = true) :
    ∃ db2 out2, clear_challenges timeout now db = some (db2, out2)
      ∧ (∃ x ∈ db2, x.slack_id = u.slack_id ∧ x.challenge = none ∧
          x.challenge_datetime = none)
      ∧ timedOutCount u.slack_channel out2 = 1 := by
  have hrows_nd : ((db.filter (fun x => x.challenge.isSome)).map
      (fun r => r.slack_id)).Nodup :=
    List.Nodup.sublist (List.Sublist.map _ (List.filter_sublist db)) hnd
  have hmain := clearGo_clears_once timeout now u.slack_channel u c t hc ht
    (Nat.le_of_lt hexp) hid0 hc0
    (db.filter (fun x => x.challenge.isSome)) db [] ⟨hnd, hnorm⟩ hrows_nd
    (fun r hr => hdtall r (List.mem_of_mem_filter hr))
    (List.mem_filter.mpr ⟨hu, by simp [hc]⟩)
    ⟨u, hu, rfl, rfl⟩ htar
    (fun r hr hrne v hv hvsid => hch v hv (by rw [hvsid]; exact hrne))
  obtain ⟨db2, out2, heq, hcleared, hcnt⟩ := hmain
  refine ⟨db2, out2, heq, hcleared, ?_⟩
  rw [hcnt]
  rfl

/-- A second user acting as the challenge target for the witness. -/
def targetUserC7 : User := { blankUser "U2" with slack_channel := some "D2" }

/-- Witness for C7 (amended): `U1`, expired and targeting the existing `U2`,
is cleared and notified exactly once. -/
theorem expiry_clears_and_notifies_once_witness :
    ∃ db2 out2, clear_challenges 30 100 [expiredUserC7way, targetUserC7] =
        some (db2, out2)
      ∧ (∃ x ∈ db2, x.slack_id = expiredUserC7way.slack_id ∧ x.challenge = none ∧
          x.challenge_datetime = none)
      ∧ timedOutCount expiredUserC7way.slack_channel out2 = 1 :=
  expiry_clears_and_notifies_once 30 100 [expiredUserC7way, targetUserC7]
    expiredUserC7way "U2" 0 (by decide) (by decide) (by decide) rfl rfl
    (by decide) (by decide) (by decide) (by decide) (by decide) (by decide)

/-! ### The history-subset invariant (C9) -/

/-- **C9** (amended): the rotation algorithm itself preserves the
history-subset invariant — every pick it records is a currently-eligible
other user, and a round reset only removes rows — so the invariant holds as
long as eligibility flags and the user set do not change.  The
face-detection sweep and roster deletions do not purge history, which is
what breaks the claim as stated (see the counterexample). -/
theorem rotation_preserves_history_subset (self : User) (db : List User)
    (tbl : List (String × String)) (r : Nat) (p : String)
    (tbl2 : List (String × String))
    (hinv : ∀ q ∈ tbl, q.2 ∈ eligible_others q.1 db)
    (hstep : get_next_challenge self db tbl r = some (p, tbl2)) :
    ∀ q ∈ tbl2, q.2 ∈ eligible_others q.1 db := by
  have hvalid_eq : get_all_valid_users self db = eligible_others self.slack_id db := rfl
  simp only [get_next_challenge] at hstep
  by_cases hav : ((get_all_valid_users self db).filter
      (fun u => decide (u ∉ userHistory self.slack_id tbl))).isEmpty = true
  · rw [if_pos hav] at hstep
    dsimp only at hstep
    by_cases hAll : (get_all_valid_users self db).isEmpty = true
    · rw [if_pos hAll] at hstep
      exact absurd hstep (by simp)
    · rw [if_neg hAll] at hstep
      obtain ⟨h1, h2⟩ := Prod.mk.injEq .. ▸ (Option.some.injEq .. ▸ hstep)
      intro q hq
      rw [← h2] at hq
      rcases List.mem_append.mp hq with hq | hq
      · exact hinv q (List.mem_of_mem_filter hq)
      · simp only [List.mem_singleton] at hq
        subst hq
        have hmem : (get_all_valid_users self db).getD
            (r % (get_all_valid_users self db).length) "" ∈
            get_all_valid_users self db :=
          getD_mod_mem "" r (by simpa using hAll)
        rw [hvalid_eq] at hmem
        exact hmem
  · rw [if_neg (by simp only [hav]; exact fun h => hav h)] at hstep
    rw [if_neg (by simpa using hav)] at hstep
    obtain ⟨h1, h2⟩ := Prod.mk.injEq .. ▸ (Option.some.injEq .. ▸ hstep)
    intro q hq
    rw [← h2] at hq
    rcases List.mem_append.mp hq with hq | hq
    · exact hinv q hq
    · simp only [List.mem_singleton] at hq
      subst hq
      have hmem := getD_mod_mem (l := (get_all_valid_users self db).filter
          (fun u => decide (u ∉ userHistory self.slack_id tbl))) "" r
        (by simpa using hav)
      have hmem2 := (mem_of_filter_sub hmem).1
      rw [hvalid_eq] at hmem2
      exact hmem2

/-- Witness for C9 (amended): an empty history plus one rotation call for
`U1` against the single eligible other `U2`. -/
theorem rotation_preserves_history_subset_witness :
    (("U1", "U2") : String × String).2 ∈
      eligible_others (("U1", "U2") : String × String).1 [blankUser "U2"] :=
  rotation_preserves_history_subset (blankUser "U1") [blankUser "U2"] [] 0 "U2"
    [("U1", "U2")] (by decide) rfl ("U1", "U2") (by decide)

/-- The direct-channel map used in the C9 trace. -/
def chansC9 : List (String × String) := [("U1", "D1"), ("U2", "D2")]

/-- Roster profile of `U1` for the C9 trace. -/
def profileC9A : SlackProfile :=
  { email := some "a@x.io"
    real_name_normalized := some "Alice A"
    display_name_normalized := some "ali"
    phone := none
    image_192 := some "pa" }

/-- Roster profile of `U2` for the C9 trace. -/
def profileC9B : SlackProfile :=
  { email := some "b@x.io"
    real_name_normalized := some "Bob B"
    display_name_normalized := some "bob"
    phone := none
    image_192 := some "pb" }

/-- Roster entry of `U1`. -/
def memberC9A : SlackMember :=
  { id := some "U1", deleted := false, is_bot := false, profile := some profileC9A }

/-- Roster entry of `U2`. -/
def memberC9B : SlackMember :=
  { id := some "U2", deleted := false, is_bot := false, profile := some profileC9B }

/-- State after the directory sync creates `U1`. -/
def sC9a : SysState := (sync_member chansC9 memberC9A [] []).getD ([], [])

/-- State after the directory sync creates `U2`. -/
def sC9b : SysState := (sync_member chansC9 memberC9B sC9a.1 sC9a.2).getD ([], [])

/-- State after `U1` plays: the history records `(U1, U2)`. -/
def sC9c : SysState :=
  ((processEvent 7 0 ⟨"U1", "play"⟩ sC9b.1 sC9b.2).1,
   (processEvent 7 0 ⟨"U1", "play"⟩ sC9b.1 sC9b.2).2.1)

/-- The face-detection verdict that stops finding a face in `U2`'s avatar. -/
def verdictC9 : String → Bool := fun s => !(s == "U2")

/-- State after the face-detection sweep marks `U2` ineligible: the history
row `(U1, U2)` now references a non-eligible user. -/
def sC9d : SysState := (faceSweep verdictC9 sC9c.1, sC9c.2)

/-- Counterexample for C9 as stated: a reachable state (empty database, two
roster syncs, one play, one face-detection sweep that flips `U2`'s
eligibility) whose challenge history for `U1` contains `U2`, which is no
longer in `U1`'s eligible-others set — the history tables are never purged
when eligibility changes. -/
theorem history_subset_inv_violated :
    Reachable sC9d ∧ ¬ HistoryInv sC9d := by
  have h1 : SysStep (([], []) : SysState) sC9a :=
    SysStep.sync chansC9 memberC9A ([], []) sC9a rfl
  have h2 : SysStep sC9a sC9b :=
    SysStep.sync chansC9 memberC9B sC9a sC9b rfl
  have h3 : SysStep sC9b sC9c := SysStep.message 7 0 ⟨"U1", "play"⟩ sC9b
  have h4 : SysStep sC9c sC9d := SysStep.face verdictC9 sC9c
  refine ⟨?_, by decide⟩
  exact Relation.ReflTransGen.tail (Relation.ReflTransGen.tail
    (Relation.ReflTransGen.tail (Relation.ReflTransGen.tail
      Relation.ReflTransGen.refl h1) h2) h3) h4

end StaffBot
